import Mathlib

/-!
Shallow embedding of the gh-ping notification pipeline
(src/src/formatting/activity.ts, src/src/formatting/thread.ts,
src/src/formatting/display-name.ts, src/src/github/transform.ts,
src/src/daemon/daemon.ts), together with theorems checking the
natural-language specification against the code.

Conventions of the embedding:
* JavaScript Date values are modelled as natural numbers; the only
  operations the code performs on them are order comparisons.
* Optional fields become Option; JavaScript truthiness of an optional
  string field is "present and non-empty" where the TS type admits the
  empty string, and "present" where the TS type is a union of non-empty
  literals.
* Record<string, string> alias maps become functions String to
  Option String.
* User-supplied filter functions may throw; a throwing call is modelled
  by Except String Bool, where .error e is a thrown exception.
-/

namespace GhPing

/-- Actor payload: an object with a login field. -/
structure Actor where
  login : String
deriving DecidableEq, Repr

/-- Git signature payload on committed events (name and email). -/
structure GitSig where
  name : String
  email : String
deriving DecidableEq, Repr

/-- Requested team payload on review_requested events. -/
structure Team where
  name : String
  slug : String
deriving DecidableEq, Repr

/-- Activity - a timeline event within a thread (src/src/config/schema.ts).
Timestamps are naturals, all optional fields are Option. -/
structure Activity where
  event : String
  createdAt : Nat
  actor : Option Actor := none
  body : Option String := none
  state : Option String := none
  assignee : Option Actor := none
  requestedReviewer : Option Actor := none
  requestedTeam : Option Team := none
  author : Option GitSig := none
  committer : Option GitSig := none
  count : Option Nat := none
  preMergeCount : Option Nat := none
deriving DecidableEq, Repr

instance : Inhabited Activity := ⟨{ event := "", createdAt := 0 }⟩

/-- Thread subject (src/src/config/schema.ts). -/
structure Subject where
  type : String
  title : String
  url : Option String := none
  htmlUrl : Option String := none
deriving DecidableEq, Repr

/-- Thread repository (src/src/config/schema.ts). -/
structure Repo where
  fullName : String
  name : String
  owner : String
  isPrivate : Bool
  htmlUrl : String
deriving DecidableEq, Repr

/-- Thread - a GitHub notification thread (src/src/config/schema.ts). -/
structure Thread where
  id : String
  reason : String
  subject : Subject
  repository : Repo
  unread : Bool
  updatedAt : Nat
  activities : List Activity := []
deriving DecidableEq, Repr

/-- Read-only thread projection handed to user filters
(ThreadFilterInput in src/src/config/schema.ts). -/
structure ThreadFilterInput where
  id : String
  reason : String
  subjectType : String
  subjectTitle : String
  repoFullName : String
  repoName : String
  repoOwner : String
  repoPrivate : Bool
  unread : Bool
  updatedAt : Nat
deriving DecidableEq, Repr

/-- Read-only activity projection handed to user filters
(ActivityFilterInput in src/src/config/schema.ts). -/
structure ActivityFilterInput where
  event : String
  createdAt : Nat
  actor : Option Actor := none
  state : Option String := none
  assignee : Option Actor := none
  requestedReviewer : Option Actor := none
  requestedTeam : Option Team := none
deriving DecidableEq, Repr

/-- A user thread filter; .error models a thrown exception. -/
abbrev ThreadFilter : Type := ThreadFilterInput → Except String Bool

/-- A user activity filter; .error models a thrown exception. -/
abbrev ActivityFilter : Type := ThreadFilterInput → ActivityFilterInput → Except String Bool

/-- Full configuration after defaults (GhPingConfig in
src/src/config/schema.ts); alias maps are lookup functions. -/
structure GhPingConfig where
  skipThreads : List ThreadFilter
  markSkippedAsRead : Bool
  skipActivities : List ActivityFilter
  repoAliases : String → Option String
  userAliases : String → Option String
  sound : Bool
  markAsReadOnClick : Bool
  collapseMergedPrActivities : Bool

/-! ## src/src/formatting/display-name.ts -/

/-- getUserDisplayName: alias if present and truthy (non-empty),
otherwise the login as-is. -/
def getUserDisplayName (login : String) (aliases : String → Option String) : String :=
  match aliases login with
  | some a => if a ≠ "" then a else login
  | none => login

/-- JavaScript String.prototype.split with separator "/", structurally
on the character list (e.g. "a/b/c" gives ["a", "b", "c"], a string
without a slash gives a singleton). -/
def splitSlashAux : List Char → List Char → List (List Char)
  | [], acc => [acc.reverse]
  | c :: cs, acc =>
      if c = '/' then acc.reverse :: splitSlashAux cs []
      else splitSlashAux cs (c :: acc)

/-- JS fullName.split("/") on a String. -/
def jsSplitSlash (s : String) : List String :=
  (splitSlashAux s.data []).map List.asString

/-- getRepoDisplayName: alias if present and truthy, otherwise the repo
name without the owner (second component of fullName split on a slash),
falling back to the full name. -/
def getRepoDisplayName (fullName : String) (aliases : String → Option String) : String :=
  match aliases fullName with
  | some a => if a ≠ "" then a else ((jsSplitSlash fullName).get? 1).getD fullName
  | none => ((jsSplitSlash fullName).get? 1).getD fullName

/-! ## src/src/formatting/activity.ts -/

/-- JS truthiness of the viewerLogin value (string or null): present and
non-empty. -/
def viewerTruthy : Option String → Bool
  | some v => v ≠ ""
  | none => false

/-- formatActivityTitle - title text per event kind and state.
An empty string means the event kind is unknown (skipped). -/
def formatActivityTitle (activity : Activity) (actor : String) (prTitle : String)
    (config : GhPingConfig) (viewerLogin : Option String) : String :=
  let count := activity.count.getD 1
  if activity.event = "commented" then
    if count > 1 then actor ++ " left comments on \"" ++ prTitle ++ "\""
    else actor ++ " commented on \"" ++ prTitle ++ "\""
  else if activity.event = "line-commented" then
    if count > 1 then actor ++ " left code comments on \"" ++ prTitle ++ "\""
    else actor ++ " commented on code in \"" ++ prTitle ++ "\""
  else if activity.event = "reviewed" then
    match activity.state with
    | some "approved" => actor ++ " approved \"" ++ prTitle ++ "\""
    | some "changes_requested" => actor ++ " requested changes on \"" ++ prTitle ++ "\""
    | some "commented" =>
        if count > 1 then actor ++ " left reviews on \"" ++ prTitle ++ "\""
        else actor ++ " left a review on \"" ++ prTitle ++ "\""
    | some "dismissed" =>
        if count > 1 then actor ++ " dismissed reviews on \"" ++ prTitle ++ "\""
        else actor ++ " dismissed a review on \"" ++ prTitle ++ "\""
    | _ => actor ++ " reviewed \"" ++ prTitle ++ "\""
  else if activity.event = "review_requested" then
    match activity.requestedTeam with
    | some team => actor ++ " requested review from @" ++ team.name ++ " on \"" ++ prTitle ++ "\""
    | none => actor ++ " requested your review on \"" ++ prTitle ++ "\""
  else if activity.event = "assigned" then
    match activity.assignee with
    | some assigneeActor =>
        if activity.actor.map Actor.login = some assigneeActor.login then
          actor ++ " assigned themselves to \"" ++ prTitle ++ "\""
        else
          let assignee := getUserDisplayName assigneeActor.login config.userAliases
          if viewerTruthy viewerLogin ∧ some assigneeActor.login = viewerLogin then
            actor ++ " assigned you to \"" ++ prTitle ++ "\""
          else actor ++ " assigned " ++ assignee ++ " to \"" ++ prTitle ++ "\""
    | none => actor ++ " assigned someone to \"" ++ prTitle ++ "\""
  else if activity.event = "merged" then
    if activity.preMergeCount.getD 0 ≠ 0 then
      actor ++ " merged \"" ++ prTitle ++ "\" + earlier activities"
    else actor ++ " merged \"" ++ prTitle ++ "\""
  else if activity.event = "closed" then
    actor ++ " closed \"" ++ prTitle ++ "\""
  else if activity.event = "reopened" then
    actor ++ " reopened \"" ++ prTitle ++ "\""
  else if activity.event = "committed" then
    let committerName : Option String :=
      match activity.committer with
      | some c => if c.name ≠ "" then some (getUserDisplayName c.name config.userAliases) else none
      | none => none
    let authorName : Option String :=
      match activity.author with
      | some a => if a.name ≠ "" then some (getUserDisplayName a.name config.userAliases) else none
      | none => none
    let commitWord := if count > 1 then "commits" else "a commit"
    match committerName, authorName with
    | some cn, some an =>
        if cn ≠ an then an ++ " committed (via " ++ cn ++ ") on \"" ++ prTitle ++ "\""
        else cn ++ " pushed " ++ commitWord ++ " to \"" ++ prTitle ++ "\""
    | some cn, none => cn ++ " pushed " ++ commitWord ++ " to \"" ++ prTitle ++ "\""
    | none, some an => an ++ " pushed " ++ commitWord ++ " to \"" ++ prTitle ++ "\""
    | none, none =>
        if count > 1 then "Commits pushed to \"" ++ prTitle ++ "\""
        else "New commits pushed to \"" ++ prTitle ++ "\""
  else ""

/-- getActivityGroupKey - grouping key: committer-or-author name for
commits, actor plus state for stateful reviews, actor plus event
otherwise. -/
def getActivityGroupKey (activity : Activity) : String :=
  if activity.event = "committed" then
    (((activity.committer.map GitSig.name).orElse
        (fun _ => activity.author.map GitSig.name)).getD "unknown")
      ++ ":" ++ activity.event
  else if activity.event = "reviewed" ∧ activity.state.isSome then
    ((activity.actor.map Actor.login).getD "unknown") ++ ":" ++ activity.event
      ++ ":" ++ activity.state.getD ""
  else
    ((activity.actor.map Actor.login).getD "unknown") ++ ":" ++ activity.event

/-- One entry of the grouping map of reduceActivities. -/
structure GroupEntry where
  activity : Activity
  count : Nat
  lastIndex : Nat
deriving DecidableEq, Repr

/-- JS Map.get on the insertion-ordered association list. -/
def mapGet (m : List (String × GroupEntry)) (k : String) : Option GroupEntry :=
  (m.find? (fun p => p.1 == k)).map Prod.snd

/-- JS Map.set: update in place (keeping insertion position) or append. -/
def mapSet (m : List (String × GroupEntry)) (k : String) (v : GroupEntry) :
    List (String × GroupEntry) :=
  match m with
  | [] => [(k, v)]
  | p :: rest => if p.1 = k then (k, v) :: rest else p :: mapSet rest k v

/-- One step of the forEach loop of reduceActivities: the pair carries
(index, activity). -/
def reduceStep (m : List (String × GroupEntry)) (ia : Nat × Activity) :
    List (String × GroupEntry) :=
  match mapGet m (getActivityGroupKey ia.2) with
  | some existing => mapSet m (getActivityGroupKey ia.2) ⟨ia.2, existing.count + 1, ia.1⟩
  | none => mapSet m (getActivityGroupKey ia.2) ⟨ia.2, 1, ia.1⟩

/-- Comparison used by the final sort of reduceActivities
(comparator (a, b) => a.lastIndex - b.lastIndex). -/
def entryLe (p q : String × GroupEntry) : Prop :=
  p.2.lastIndex ≤ q.2.lastIndex

instance : DecidableRel entryLe := fun p q => Nat.decLe p.2.lastIndex q.2.lastIndex

instance : IsTotal (String × GroupEntry) entryLe := ⟨fun p q => Nat.le_total p.2.lastIndex q.2.lastIndex⟩

instance : IsTrans (String × GroupEntry) entryLe := ⟨fun _ _ _ h h' => Nat.le_trans h h'⟩

/-- reduceActivities - collapse duplicate group keys, keep the latest
occurrence of each group, set count, and order groups by the index of
their latest occurrence.  The JS array sort on the (pairwise distinct)
lastIndex fields is modelled by insertion sort on entryLe; any correct
sort agrees on lists whose sort keys are distinct. -/
def reduceActivities (activities : List Activity) : List Activity :=
  let groups := activities.enum.foldl reduceStep []
  let sorted := List.insertionSort entryLe groups
  sorted.map (fun p => { p.2.activity with count := some p.2.count })

/-- collapseMergeActivities - fold the activities before the first
merged event into the merge activity itself. -/
def collapseMergeActivities (activities : List Activity) : List Activity :=
  match activities.findIdx? (fun a => a.event == "merged") with
  | none => activities
  | some mergeIndex =>
    if mergeIndex = 0 then activities
    else
      match activities.get? mergeIndex with
      | none => activities
      | some mergeActivity =>
          ({ mergeActivity with preMergeCount := some mergeIndex })
            :: activities.drop (mergeIndex + 1)

/-- formatActivityBody - "in repo" plus optional trimmed comment text. -/
def formatActivityBody (activity : Activity) (repo : String) : String :=
  match activity.body with
  | some b => if b.trim ≠ "" then "in " ++ repo ++ ": " ++ b.trim else "in " ++ repo
  | none => "in " ++ repo

/-- A formatted notification (title and body). -/
structure Formatted where
  title : String
  body : String
deriving DecidableEq, Repr

/-- formatActivityNotification - none when the title came back empty
(unknown event kind). -/
def formatActivityNotification (thread : Thread) (activity : Activity)
    (config : GhPingConfig) (viewerLogin : Option String) : Option Formatted :=
  let actor := getUserDisplayName ((activity.actor.map Actor.login).getD "Someone") config.userAliases
  let title := formatActivityTitle activity actor thread.subject.title config viewerLogin
  if title = "" then none
  else some ⟨title, formatActivityBody activity (getRepoDisplayName thread.repository.fullName config.repoAliases)⟩

/-! ## src/src/formatting/thread.ts

extractBranchFromSubject is a fixed regex match on the subject title; no
claim depends on its string-level semantics, so the theorems below
quantify over an arbitrary extraction function extractBranch. -/

/-- formatFallbackBody - "in repo", with the branch appended for
WorkflowRun/CheckSuite subjects when one is extractable. -/
def formatFallbackBody (extractBranch : String → Option String) (thread : Thread)
    (repo : String) : String :=
  if thread.subject.type = "WorkflowRun" ∨ thread.subject.type = "CheckSuite" then
    match extractBranch thread.subject.title with
    | some branch => "in " ++ repo ++ ": " ++ branch
    | none => "in " ++ repo
  else "in " ++ repo

/-- formatReasonTitle - fallback title from subject type and reason. -/
def formatReasonTitle (type reason subjectTitle : String) : String :=
  if type = "PullRequest" then
    if reason = "review_requested" then "Review requested on \"" ++ subjectTitle ++ "\""
    else if reason = "comment" then "Comment on \"" ++ subjectTitle ++ "\""
    else if reason = "author" then "Your PR \"" ++ subjectTitle ++ "\" was updated"
    else if reason = "mention" then "You were mentioned in \"" ++ subjectTitle ++ "\""
    else if reason = "assign" then "You were assigned to \"" ++ subjectTitle ++ "\""
    else "Activity on \"" ++ subjectTitle ++ "\""
  else if type = "Issue" then
    if reason = "mention" then "You were mentioned in \"" ++ subjectTitle ++ "\""
    else if reason = "assign" then "You were assigned to \"" ++ subjectTitle ++ "\""
    else if reason = "comment" then "Comment on \"" ++ subjectTitle ++ "\""
    else if reason = "author" then "Your issue \"" ++ subjectTitle ++ "\" was updated"
    else "Activity on \"" ++ subjectTitle ++ "\""
  else if type = "Discussion" then "Discussion \"" ++ subjectTitle ++ "\""
  else if type = "Release" then "New release \"" ++ subjectTitle ++ "\""
  else if type = "WorkflowRun" ∨ type = "CheckSuite" then "CI workflow failed"
  else if type = "Commit" then "Commit activity on \"" ++ subjectTitle ++ "\""
  else "Activity on \"" ++ subjectTitle ++ "\""

/-- formatThreadNotification - fallback thread-level notification,
always produced. -/
def formatThreadNotification (extractBranch : String → Option String) (thread : Thread)
    (config : GhPingConfig) : Formatted :=
  let repo := getRepoDisplayName thread.repository.fullName config.repoAliases
  ⟨formatReasonTitle thread.subject.type thread.reason thread.subject.title,
   formatFallbackBody extractBranch thread repo⟩

/-! ## src/src/github/transform.ts -/

/-- One comment inside a line-commented timeline item. -/
structure RawComment where
  created_at : Option Nat
  user : Option Actor
  body : Option String
deriving DecidableEq, Repr

/-- IssueTimelineItem - the discriminated union of raw timeline events
(src/unnamed github types).  The constructor named other stands for any
event kind outside the dispatch table; the TS switch drops it. -/
inductive TimelineItem where
  | committed (author : GitSig) (authorDate : Nat) (committer : GitSig) (message : String)
  | reviewed (user : Actor) (state : String) (submittedAt : Option Nat) (body : Option String)
  | commented (actor : Actor) (createdAt : Nat) (body : String)
  | lineCommented (comments : List RawComment)
  | assigned (actor : Actor) (assignee : Actor) (createdAt : Nat)
  | unassigned (actor : Actor) (assignee : Actor) (createdAt : Nat)
  | reviewRequested (actor : Actor) (createdAt : Nat)
      (requestedReviewer : Option Actor) (requestedTeam : Option Team)
  | reviewRequestRemoved (actor : Actor) (createdAt : Nat)
      (requestedReviewer : Option Actor) (requestedTeam : Option Team)
  | closed (actor : Actor) (createdAt : Nat)
  | reopened (actor : Actor) (createdAt : Nat)
  | merged (actor : Actor) (createdAt : Nat)
  | other
deriving DecidableEq

/-- transformTimelineItem - shape one raw event into an Activity, or
none for untracked kinds; now stands for the new Date() fallback used
when a reviewed item has no submitted_at or a line-commented item has no
first comment timestamp. -/
def transformTimelineItem (now : Nat) : TimelineItem → Option Activity
  | .committed author authorDate committer message =>
      some { event := "committed", createdAt := authorDate, body := some message,
             author := some author, committer := some committer }
  | .reviewed user state submittedAt body =>
      some { event := "reviewed", createdAt := submittedAt.getD now,
             actor := some user, state := some state, body := body }
  | .assigned actor assignee createdAt =>
      some { event := "assigned", createdAt := createdAt,
             actor := some actor, assignee := some assignee }
  | .unassigned actor assignee createdAt =>
      some { event := "unassigned", createdAt := createdAt,
             actor := some actor, assignee := some assignee }
  | .reviewRequested actor createdAt requestedReviewer requestedTeam =>
      some { event := "review_requested", createdAt := createdAt, actor := some actor,
             requestedReviewer := requestedReviewer, requestedTeam := requestedTeam }
  | .reviewRequestRemoved actor createdAt requestedReviewer requestedTeam =>
      some { event := "review_request_removed", createdAt := createdAt, actor := some actor,
             requestedReviewer := requestedReviewer, requestedTeam := requestedTeam }
  | .commented actor createdAt body =>
      some { event := "commented", createdAt := createdAt,
             actor := some actor, body := some body }
  | .lineCommented comments =>
      let firstComment := comments.head?
      some { event := "line-commented",
             createdAt := ((firstComment.bind RawComment.created_at).getD now),
             actor := firstComment.bind RawComment.user,
             body := firstComment.bind RawComment.body }
  | .closed actor createdAt => some { event := "closed", createdAt := createdAt, actor := some actor }
  | .reopened actor createdAt => some { event := "reopened", createdAt := createdAt, actor := some actor }
  | .merged actor createdAt => some { event := "merged", createdAt := createdAt, actor := some actor }
  | .other => none

/-- The trailing merged/closed suppression step of transformTimeline:
when the shaped list has at least two elements and ends with a closed
event right after a merged event, the trailing closed is dropped. -/
def suppressMergedClosed (activities : List Activity) : List Activity :=
  if 2 ≤ activities.length then
    match activities.getLast?, (activities.get? (activities.length - 2)) with
    | some last, some secondLast =>
        if last.event = "closed" ∧ secondLast.event = "merged" then activities.dropLast
        else activities
    | _, _ => activities
  else activities

/-- transformTimeline - shape every tracked item, then suppress a
redundant trailing closed right after a merged. -/
def transformTimeline (now : Nat) (items : List TimelineItem) : List Activity :=
  suppressMergedClosed (items.filterMap (transformTimelineItem now))

/-! ## src/src/daemon/daemon.ts -/

/-- toThreadFilterInput - minimal read-only projection of a thread. -/
def toThreadFilterInput (thread : Thread) : ThreadFilterInput :=
  { id := thread.id
    reason := thread.reason
    subjectType := thread.subject.type
    subjectTitle := thread.subject.title
    repoFullName := thread.repository.fullName
    repoName := thread.repository.name
    repoOwner := thread.repository.owner
    repoPrivate := thread.repository.isPrivate
    unread := thread.unread
    updatedAt := thread.updatedAt }

/-- toActivityFilterInput - read-only projection of an activity; the
optional payload fields are copied only when truthy. -/
def toActivityFilterInput (activity : Activity) : ActivityFilterInput :=
  { event := activity.event
    createdAt := activity.createdAt
    actor := activity.actor
    state := if activity.state.isSome then activity.state else none
    assignee := if activity.assignee.isSome then activity.assignee else none
    requestedReviewer := if activity.requestedReviewer.isSome then activity.requestedReviewer else none
    requestedTeam := if activity.requestedTeam.isSome then activity.requestedTeam else none }

/-- Run one user thread filter: a thrown error (logged by the daemon) is
treated as returning false. -/
def runThreadFilter (f : ThreadFilter) (input : ThreadFilterInput) : Bool :=
  match f input with
  | .ok b => b
  | .error _ => false

/-- Run one user activity filter: a thrown error (logged by the daemon)
is treated as returning false. -/
def runActivityFilter (f : ActivityFilter) (t : ThreadFilterInput)
    (a : ActivityFilterInput) : Bool :=
  match f t a with
  | .ok b => b
  | .error _ => false

/-- shouldSkipThread - true when any filter returns true; filter errors
are caught and treated as do-not-skip. -/
def shouldSkipThread (thread : Thread) (filters : List ThreadFilter) : Bool :=
  filters.any (fun f => runThreadFilter f (toThreadFilterInput thread))

/-- shouldSkipActivity - skip the viewer's own activities, otherwise
true when any filter returns true; filter errors are caught and treated
as do-not-skip. -/
def shouldSkipActivity (thread : Thread) (activity : Activity)
    (filters : List ActivityFilter) (viewerLogin : Option String) : Bool :=
  if viewerTruthy viewerLogin ∧ activity.actor.map Actor.login = viewerLogin then true
  else
    filters.any (fun f =>
      runActivityFilter f (toThreadFilterInput thread) (toActivityFilterInput activity))

/-- filterThreads - keep unread threads not matched by a skip filter,
collect skipped unread threads, silently drop read threads. -/
def filterThreads (threads : List Thread) (filters : List ThreadFilter) :
    List Thread × List Thread :=
  match threads with
  | [] => ([], [])
  | t :: rest =>
      let (kept, skipped) := filterThreads rest filters
      if ¬t.unread then (kept, skipped)
      else if shouldSkipThread t filters then (kept, t :: skipped)
      else (t :: kept, skipped)

/-- Stages 4, 5 and 5.5 of one poll cycle for a single kept thread:
filter activities, reduce them, and collapse merged PR activities when
configured. -/
def processThread (config : GhPingConfig) (viewerLogin : Option String) (t : Thread) : Thread :=
  let acts := t.activities.filter
    (fun a => ¬shouldSkipActivity t a config.skipActivities viewerLogin)
  let reduced := reduceActivities acts
  let final :=
    if config.collapseMergedPrActivities ∧ t.subject.type = "PullRequest" then
      collapseMergeActivities reduced
    else reduced
  { t with activities := final }

/-- One delivered alert: what sendNotification receives. -/
structure Delivery where
  title : String
  body : String
  threadId : String
deriving DecidableEq, Repr

/-- Build the Delivery for a formatted notification of a thread. -/
def mkDelivery (f : Formatted) (t : Thread) : Delivery :=
  ⟨f.title, f.body, t.id⟩

/-- The watermark guard of the delivery gate: skip when a last processed
time exists and the timestamp is at or before it. -/
def gateSkips (lastProcessedTime : Option Nat) (ts : Nat) : Bool :=
  match lastProcessedTime with
  | some w => ts ≤ w
  | none => false

/-- maxActivityTime update: take the timestamp when none is recorded yet
or when it is strictly later. -/
def updMax (m : Option Nat) (ts : Nat) : Option Nat :=
  match m with
  | none => some ts
  | some x => if ts > x then some ts else some x

/-- One iteration of the per-activity delivery loop (stage 6/7): skip
activities at or before the watermark, track the maximum timestamp, and
deliver when the formatter produced output. -/
def gateAct (config : GhPingConfig) (viewerLogin : Option String)
    (lastProcessedTime : Option Nat) (t : Thread)
    (acc : List Delivery × Option Nat) (a : Activity) : List Delivery × Option Nat :=
  if gateSkips lastProcessedTime a.createdAt then acc
  else
    let m := updMax acc.2 a.createdAt
    match formatActivityNotification t a config viewerLogin with
    | some f => (acc.1 ++ [mkDelivery f t], m)
    | none => (acc.1, m)

/-- The delivery step for one kept thread: workflow-suppressed threads
deliver nothing; threads with activities deliver per activity; empty
threads fall back to one thread-level notification gated on updatedAt. -/
def gateThread (config : GhPingConfig) (viewerLogin : Option String)
    (extractBranch : String → Option String) (skipWorkflow : Thread → Bool)
    (lastProcessedTime : Option Nat)
    (acc : List Delivery × Option Nat) (t : Thread) : List Delivery × Option Nat :=
  if skipWorkflow t then acc
  else if t.activities ≠ [] then
    t.activities.foldl (gateAct config viewerLogin lastProcessedTime t) acc
  else if gateSkips lastProcessedTime t.updatedAt then acc
  else
    (acc.1 ++ [mkDelivery (formatThreadNotification extractBranch t config) t],
     updMax acc.2 t.updatedAt)

/-- Stages 6 and 7 of one poll cycle plus the watermark update: deliver
for every kept thread and advance lastProcessedTime to the maximum
timestamp seen, or to the poll start time on a first cycle that saw
nothing.  Returns the deliveries in order and the new watermark.
shouldSkipWorkflowNotification performs an external CI lookup through a
process-lifetime cache; it is abstracted as the pure predicate
skipWorkflow. -/
def pollNotifyCore (config : GhPingConfig) (viewerLogin : Option String)
    (extractBranch : String → Option String) (skipWorkflow : Thread → Bool)
    (lastProcessedTime : Option Nat)
    (kept : List Thread) : List Delivery × Option Nat :=
  kept.foldl
    (gateThread config viewerLogin extractBranch skipWorkflow lastProcessedTime) ([], none)

def pollNotify (config : GhPingConfig) (viewerLogin : Option String)
    (extractBranch : String → Option String) (skipWorkflow : Thread → Bool)
    (lastProcessedTime : Option Nat) (requestStartTime : Nat)
    (kept : List Thread) : List Delivery × Option Nat :=
  match pollNotifyCore config viewerLogin extractBranch skipWorkflow lastProcessedTime kept,
        lastProcessedTime with
  | (out, some m), _ => (out, some m)
  | (out, none), none => (out, some requestStartTime)
  | (out, none), some w => (out, some w)

/-- One poll cycle over an already-enriched feed response: thread
filtering, activity filtering, reduction, merge collapsing, and the
delivery gate.  The feed fetch and the timeline fetch are external; the
premise of replay claims is that threads (with their enriched
activities) are the same, so the cycle takes them as input. -/
def pollCycle (config : GhPingConfig) (viewerLogin : Option String)
    (extractBranch : String → Option String) (skipWorkflow : Thread → Bool)
    (lastProcessedTime : Option Nat) (requestStartTime : Nat)
    (threads : List Thread) : List Delivery × Option Nat :=
  let kept := (filterThreads threads config.skipThreads).1
  let processed := kept.map (processThread config viewerLogin)
  pollNotify config viewerLogin extractBranch skipWorkflow
    lastProcessedTime requestStartTime processed

/-! ## Specification-level helper definitions used by the theorems -/

/-- The shaped activity list ends with a merged event immediately
followed by a closed event. -/
def endsMergedClosed (l : List Activity) : Prop :=
  ∃ init a b, l = init ++ [a, b] ∧ a.event = "merged" ∧ b.event = "closed"

/-- All activities of xs whose group key is k. -/
def keyFilter (k : String) (xs : List Activity) : List Activity :=
  xs.filter (fun a => getActivityGroupKey a == k)

/-- The last occurrence of every group key, in input order (so ordered
by each group's last occurrence index). -/
def lastOccs : List Activity → List Activity
  | [] => []
  | a :: rest =>
      if rest.any (fun b => getActivityGroupKey b == getActivityGroupKey a) then lastOccs rest
      else a :: lastOccs rest

/-- Extensional description of reduceActivities: the last occurrence of
every group, in last-occurrence order, with count set to the number of
occurrences of the group. -/
def reduceLastOccs (xs : List Activity) : List Activity :=
  (lastOccs xs).map
    (fun a => { a with count := some (keyFilter (getActivityGroupKey a) xs).length })

/-- Group key of an enumerated activity. -/
def keyAt (ia : Nat × Activity) : String := getActivityGroupKey ia.2

/-- lastOccs on an enumerated list. -/
def lastOccsE : List (Nat × Activity) → List (Nat × Activity)
  | [] => []
  | ia :: rest =>
      if rest.any (fun jb => keyAt jb == keyAt ia) then lastOccsE rest
      else ia :: lastOccsE rest

/-- Key list deduplicated keeping first occurrences (the insertion order
of the JS Map). -/
def firstKeys : List String → List String
  | [] => []
  | k :: rest => k :: (firstKeys rest).filter (fun j => j != k)

/-- Key list deduplicated keeping last occurrences. -/
def lastKeys : List String → List String
  | [] => []
  | k :: rest => if rest.contains k then lastKeys rest else k :: lastKeys rest

/-- The group entry the reduce fold builds for key k over the
enumerated input E. -/
def entryFor (k : String) (E : List (Nat × Activity)) : GroupEntry :=
  { activity := (((E.filter (fun ia => keyAt ia == k)).getLast?).map Prod.snd).getD default
    count := (E.filter (fun ia => keyAt ia == k)).length
    lastIndex := (((E.filter (fun ia => keyAt ia == k)).getLast?).map Prod.fst).getD 0 }

/-- Index of the last occurrence of group key k in xs (0 when absent). -/
def lastIdxOf (k : String) (xs : List Activity) : Nat :=
  ((xs.enum.filter (fun ia => keyAt ia == k)).getLast?.map Prod.fst).getD 0

/-- Strict comparison on group entries by lastIndex. -/
def entryLt (p q : String × GroupEntry) : Prop :=
  p.2.lastIndex < q.2.lastIndex

instance : IsAntisymm (String × GroupEntry) entryLt :=
  ⟨fun _ _ h h' => ((Nat.lt_asymm h) h').elim⟩

/-- Delivery produced by one activity under the gate, none when the
watermark suppresses it or the formatter declines it. -/
def gateActDeliv (config : GhPingConfig) (viewerLogin : Option String)
    (lastProcessedTime : Option Nat) (t : Thread) (a : Activity) : Option Delivery :=
  if gateSkips lastProcessedTime a.createdAt then none
  else (formatActivityNotification t a config viewerLogin).map (fun f => mkDelivery f t)

/-- Timestamp tracked for the watermark by one activity. -/
def gateActTrack (lastProcessedTime : Option Nat) (a : Activity) : Option Nat :=
  if gateSkips lastProcessedTime a.createdAt then none else some a.createdAt

/-- Deliveries of one kept thread under the gate. -/
def gateThreadDeliv (config : GhPingConfig) (viewerLogin : Option String)
    (extractBranch : String → Option String) (skipWorkflow : Thread → Bool)
    (lastProcessedTime : Option Nat) (t : Thread) : List Delivery :=
  if skipWorkflow t then []
  else if t.activities ≠ [] then
    t.activities.filterMap (gateActDeliv config viewerLogin lastProcessedTime t)
  else if gateSkips lastProcessedTime t.updatedAt then []
  else [mkDelivery (formatThreadNotification extractBranch t config) t]

/-- Watermark timestamps tracked by one kept thread. -/
def gateThreadTracked (skipWorkflow : Thread → Bool) (lastProcessedTime : Option Nat)
    (t : Thread) : List Nat :=
  if skipWorkflow t then []
  else if t.activities ≠ [] then
    t.activities.filterMap (gateActTrack lastProcessedTime)
  else if gateSkips lastProcessedTime t.updatedAt then []
  else [t.updatedAt]

/-- Fold updMax over a list of timestamps. -/
def updMaxList (m : Option Nat) (l : List Nat) : Option Nat :=
  l.foldl updMax m

/-- With no watermark, the gate delivers exactly one notification per
activity the formatter renders in every kept, non-workflow-suppressed
thread, and exactly one fallback notification per kept thread with no
activities. -/
def cleanDeliveries (config : GhPingConfig) (viewerLogin : Option String)
    (extractBranch : String → Option String) (skipWorkflow : Thread → Bool)
    (kept : List Thread) : List Delivery :=
  (kept.map (gateThreadDeliv config viewerLogin extractBranch skipWorkflow none)).flatten

/-- Every timestamp occurring in a feed response: each thread's
updatedAt and every activity's createdAt. -/
def allTimestamps (kept : List Thread) : List Nat :=
  (kept.map (fun t => t.updatedAt :: t.activities.map Activity.createdAt)).flatten

/-! ## Concrete sample data for witnesses and counterexamples -/

/-- Configuration with no filters, no aliases and merge collapsing off. -/
def cfg0 : GhPingConfig :=
  { skipThreads := []
    markSkippedAsRead := false
    skipActivities := []
    repoAliases := fun _ => none
    userAliases := fun _ => none
    sound := false
    markAsReadOnClick := false
    collapseMergedPrActivities := false }

/-- A comment by alice. -/
def actCommented : Activity :=
  { event := "commented", createdAt := 1, actor := some ⟨"alice"⟩, body := some "hi" }

/-- A merge by dave. -/
def actMerged : Activity :=
  { event := "merged", createdAt := 5, actor := some ⟨"dave"⟩ }

/-- A later comment by bob. -/
def actLater : Activity :=
  { event := "commented", createdAt := 9, actor := some ⟨"bob"⟩ }

/-- An unassignment event: shaped by the timeline transform but not
rendered by the formatter. -/
def actUnassigned : Activity :=
  { event := "unassigned", createdAt := 7, actor := some ⟨"alice"⟩, assignee := some ⟨"bob"⟩ }

/-- A second comment by alice differing from actCommented only in its
timestamp. -/
def actCommentedLater : Activity :=
  { event := "commented", createdAt := 4, actor := some ⟨"alice"⟩, body := some "hi" }

/-- A comment-review by alice. -/
def actReviewCommented : Activity :=
  { event := "reviewed", createdAt := 2, actor := some ⟨"alice"⟩, state := some "commented" }

/-- An approval by alice. -/
def actReviewApproved : Activity :=
  { event := "reviewed", createdAt := 3, actor := some ⟨"alice"⟩, state := some "approved" }

/-- A fresh comment by alice with a late timestamp. -/
def actFresh : Activity :=
  { event := "commented", createdAt := 20, actor := some ⟨"alice"⟩ }

/-- Sample unread issue thread carrying the given activities. -/
def mkThread (acts : List Activity) : Thread :=
  { id := "T1"
    reason := "comment"
    subject := { type := "Issue", title := "Fix", url := some "u", htmlUrl := none }
    repository :=
      { fullName := "org/repo", name := "repo", owner := "org", isPrivate := false
        htmlUrl := "h" }
    unread := true
    updatedAt := 5
    activities := acts }

/-! ## Theorems: merge collapsing (C4) -/

theorem collapse_decomp_aux (pre : List Activity) (m : Activity) (post : List Activity)
    (hpre : ∀ a ∈ pre, a.event ≠ "merged") (hm : m.event = "merged") :
    (pre ++ m :: post).findIdx? (fun a => a.event == "merged") = some pre.length ∧
    (pre ++ m :: post).get? pre.length = some m ∧
    (pre ++ m :: post).drop (pre.length + 1) = post := by
  induction pre with
  | nil =>
      refine ⟨?_, rfl, rfl⟩
      simp [List.findIdx?_cons, hm]
  | cons a pre ih =>
      have ha : a.event ≠ "merged" := hpre a (List.mem_cons_self a pre)
      have ih' := ih (fun x hx => hpre x (List.mem_cons_of_mem a hx))
      refine ⟨?_, ?_, ?_⟩
      · simp only [List.cons_append, List.findIdx?_cons]
        rw [if_neg (by simpa using ha), List.findIdx?_succ, ih'.1]
        rfl
      · exact ih'.2.1
      · exact ih'.2.2

/-- C4.  Merge-collapse behaviour of collapseMergeActivities: the list
is returned unchanged when it contains no merged event or when the
first merged event is first; otherwise the result is the merge activity
with preMergeCount set to the number of activities before the first
merged event, followed by exactly the activities after it. -/
theorem claim_C4 (xs : List Activity) :
    ((∀ a ∈ xs, a.event ≠ "merged") → collapseMergeActivities xs = xs)
  ∧ (∀ m ys, xs = m :: ys → m.event = "merged" → collapseMergeActivities xs = xs)
  ∧ (∀ pre m post, xs = pre ++ m :: post → pre ≠ [] →
      (∀ a ∈ pre, a.event ≠ "merged") → m.event = "merged" →
      collapseMergeActivities xs
        = { m with preMergeCount := some pre.length } :: post) := by
  refine ⟨?_, ?_, ?_⟩
  · intro h
    have hnone : xs.findIdx? (fun a => a.event == "merged") = none := by
      rw [List.findIdx?_eq_none_iff]
      intro a ha
      simpa using h a ha
    simp [collapseMergeActivities, hnone]
  · intro m ys hxs hm
    subst hxs
    have h0 : (m :: ys).findIdx? (fun a => a.event == "merged") = some 0 := by
      simp [List.findIdx?_cons, hm]
    simp [collapseMergeActivities, h0]
  · intro pre m post hxs hne hpre hm
    subst hxs
    obtain ⟨hidx, hget, hdrop⟩ := collapse_decomp_aux pre m post hpre hm
    have hlen : pre.length ≠ 0 := by
      intro h
      exact hne (List.eq_nil_of_length_eq_zero h)
    unfold collapseMergeActivities
    rw [hidx]
    simp only [hlen, if_false]
    rw [hget, hdrop]

theorem claim_C4_witness :
    collapseMergeActivities [actCommented, actMerged, actLater]
      = [{ actMerged with preMergeCount := some 1 }, actLater] := by
  have h := (claim_C4 [actCommented, actMerged, actLater]).2.2
    [actCommented] actMerged [actLater] rfl (by decide) (by decide) (by decide)
  simpa using h

/-! ## Theorems: predicate error containment (C8) and null viewer (C10) -/

/-- C8.  A user predicate that throws on the given input behaves exactly
as one returning false: the thread or activity is not skipped on its
account and the remaining predicates still decide the outcome.  That the
exception cannot propagate out of shouldSkipThread / shouldSkipActivity
is inherent in the embedding: both are total functions into Bool, and
runThreadFilter / runActivityFilter map every thrown error to false. -/
theorem claim_C8 (thread : Thread) (activity : Activity) (viewerLogin : Option String)
    (fs1 fs2 : List ThreadFilter) (f : ThreadFilter) (e : String)
    (gs1 gs2 : List ActivityFilter) (g : ActivityFilter) (e' : String) :
    (f (toThreadFilterInput thread) = .error e →
      shouldSkipThread thread (fs1 ++ f :: fs2)
        = shouldSkipThread thread (fs1 ++ (fun _ => .ok false) :: fs2))
  ∧ (g (toThreadFilterInput thread) (toActivityFilterInput activity) = .error e' →
      shouldSkipActivity thread activity (gs1 ++ g :: gs2) viewerLogin
        = shouldSkipActivity thread activity (gs1 ++ (fun _ _ => .ok false) :: gs2) viewerLogin) := by
  constructor
  · intro herr
    simp only [shouldSkipThread, List.any_append, List.any_cons]
    rw [show runThreadFilter f (toThreadFilterInput thread) = false from by
          simp [runThreadFilter, herr]]
    rfl
  · intro herr
    simp only [shouldSkipActivity, List.any_append, List.any_cons]
    rw [show runActivityFilter g (toThreadFilterInput thread) (toActivityFilterInput activity)
          = false from by simp [runActivityFilter, herr]]
    rfl

theorem claim_C8_witness :
    (shouldSkipThread (mkThread []) ([] ++ (fun _ => .error "boom") :: [fun _ => .ok true])
      = shouldSkipThread (mkThread []) ([] ++ (fun _ => .ok false) :: [fun _ => .ok true]))
  ∧ (shouldSkipActivity (mkThread []) actCommented
        ([] ++ (fun _ _ => .error "boom") :: [fun _ _ => .ok true]) (some "me")
      = shouldSkipActivity (mkThread []) actCommented
        ([] ++ (fun _ _ => .ok false) :: [fun _ _ => .ok true]) (some "me")) :=
  ⟨(claim_C8 (mkThread []) actCommented (some "me")
      [] [fun _ => .ok true] (fun _ => .error "boom") "boom"
      [] [fun _ _ => .ok true] (fun _ _ => .error "boom") "boom").1 rfl,
   (claim_C8 (mkThread []) actCommented (some "me")
      [] [fun _ => .ok true] (fun _ => .error "boom") "boom"
      [] [fun _ _ => .ok true] (fun _ _ => .error "boom") "boom").2 rfl⟩

/-- C10.  When the viewer identity lookup yielded no login (viewerLogin
is null, as when the identity fetch failed and null was cached), the
self-activity check in shouldSkipActivity never fires: the decision
reduces to the user predicates alone, so an activity authored by the
viewer is kept unless some user predicate returns true for it. -/
theorem claim_C10 (thread : Thread) (activity : Activity) (fs : List ActivityFilter) :
    shouldSkipActivity thread activity fs none
      = fs.any (fun f =>
          runActivityFilter f (toThreadFilterInput thread) (toActivityFilterInput activity))
  ∧ ((∀ f ∈ fs,
        runActivityFilter f (toThreadFilterInput thread) (toActivityFilterInput activity)
          = false) →
      shouldSkipActivity thread activity fs none = false) := by
  have h1 : shouldSkipActivity thread activity fs none
      = fs.any (fun f =>
          runActivityFilter f (toThreadFilterInput thread) (toActivityFilterInput activity)) := by
    simp [shouldSkipActivity, viewerTruthy]
  refine ⟨h1, fun hall => ?_⟩
  rw [h1]
  exact List.any_eq_false.mpr (fun x hx => by simp [hall x hx])

theorem claim_C10_witness :
    shouldSkipActivity (mkThread []) actCommented [fun _ _ => .error "boom"] none = false :=
  (claim_C10 (mkThread []) actCommented [fun _ _ => .error "boom"]).2 (by
    intro f hf
    rw [List.mem_singleton] at hf
    subst hf
    rfl)

/-! ## Theorems: merged/closed feed quirk suppression (C9) -/

theorem append2_getLast (init : List Activity) (a b : Activity) :
    (init ++ [a, b]).getLast? = some b := by
  have : init ++ [a, b] = (init ++ [a]) ++ [b] := by simp
  rw [this, List.getLast?_concat]

theorem append2_secondLast (init : List Activity) (a b : Activity) :
    (init ++ [a, b]).get? ((init ++ [a, b]).length - 2) = some a := by
  rw [List.length_append]
  have h2 : init.length + 2 - 2 = init.length := by omega
  rw [show ([a, b] : List Activity).length = 2 from rfl, h2,
    List.get?_append_right (Nat.le_refl _)]
  simp

theorem suppress_append2 (init : List Activity) (a b : Activity) :
    suppressMergedClosed (init ++ [a, b])
      = if b.event = "closed" ∧ a.event = "merged" then init ++ [a] else init ++ [a, b] := by
  have hlen : 2 ≤ (init ++ [a, b]).length := by
    rw [List.length_append]
    simp
  have hdrop : (init ++ [a, b]).dropLast = init ++ [a] := by
    have : init ++ [a, b] = (init ++ [a]) ++ [b] := by simp
    rw [this, List.dropLast_concat]
  unfold suppressMergedClosed
  rw [if_pos hlen, append2_getLast, append2_secondLast]
  show (if b.event = "closed" ∧ a.event = "merged" then (init ++ [a, b]).dropLast
        else init ++ [a, b]) = _
  by_cases h : b.event = "closed" ∧ a.event = "merged"
  · rw [if_pos h, if_pos h, hdrop]
  · rw [if_neg h, if_neg h]

theorem exists_append2_of_two_le {l : List Activity} (h : 2 ≤ l.length) :
    ∃ init a b, l = init ++ [a, b] := by
  match hr : l.reverse with
  | [] =>
      exfalso
      have hl : l = [] := by simpa using congrArg List.reverse hr
      rw [hl] at h
      exact absurd h (by decide)
  | [x] =>
      exfalso
      have hl : l = [x] := by simpa using congrArg List.reverse hr
      rw [hl] at h
      simp at h
  | b :: a :: t =>
      refine ⟨t.reverse, a, b, ?_⟩
      have := congrArg List.reverse hr
      simpa using this

theorem endsMergedClosed_last {l : List Activity} (h : endsMergedClosed l) :
    ∃ b, l.getLast? = some b ∧ b.event = "closed" := by
  obtain ⟨init, a, b, hl, _, hb⟩ := h
  exact ⟨b, by rw [hl, append2_getLast], hb⟩

theorem two_le_length_of_ends {l : List Activity} (h : endsMergedClosed l) :
    2 ≤ l.length := by
  obtain ⟨init, a, b, hl, _, _⟩ := h
  rw [hl, List.length_append]
  simp

theorem suppress_of_ends {l : List Activity} (h : endsMergedClosed l) :
    suppressMergedClosed l = l.dropLast := by
  obtain ⟨init, a, b, hl, hm, hc⟩ := h
  subst hl
  rw [suppress_append2, if_pos ⟨hc, hm⟩]
  have : init ++ [a, b] = (init ++ [a]) ++ [b] := by simp
  rw [this, List.dropLast_concat]

theorem not_ends_suppress (l : List Activity) :
    ¬ endsMergedClosed (suppressMergedClosed l) := by
  by_cases h2 : 2 ≤ l.length
  · obtain ⟨init, a, b, hl⟩ := exists_append2_of_two_le h2
    subst hl
    rw [suppress_append2]
    by_cases h : b.event = "closed" ∧ a.event = "merged"
    · rw [if_pos h]
      intro hends
      obtain ⟨c, hc, hcev⟩ := endsMergedClosed_last hends
      rw [List.getLast?_concat] at hc
      have : a.event = "closed" := by
        cases hc
        exact hcev
      rw [h.2] at this
      exact absurd this (by decide)
    · rw [if_neg h]
      intro hends
      obtain ⟨init', a', b', hl', hm', hc'⟩ := hends
      have hb : b' = b := by
        have h1 := append2_getLast init' a' b'
        rw [← hl', append2_getLast] at h1
        cases h1
        rfl
      have ha : a' = a := by
        have h1 := append2_secondLast init' a' b'
        rw [← hl'] at h1
        rw [append2_secondLast] at h1
        cases h1
        rfl
      exact h ⟨hb ▸ hc', ha ▸ hm'⟩
  · have hsup : suppressMergedClosed l = l := by
      unfold suppressMergedClosed
      rw [if_neg h2]
    rw [hsup]
    intro hends
    exact h2 (two_le_length_of_ends hends)

/-- C9.  transformTimeline drops a trailing closed activity immediately
preceded by a merged activity (the GitHub double-fire quirk when a PR is
merged), so its output never ends with the pair merged, closed. -/
theorem claim_C9 (now : Nat) (items : List TimelineItem) :
    (endsMergedClosed (items.filterMap (transformTimelineItem now)) →
      transformTimeline now items
        = (items.filterMap (transformTimelineItem now)).dropLast)
  ∧ ¬ endsMergedClosed (transformTimeline now items) := by
  constructor
  · intro h
    exact suppress_of_ends h
  · exact not_ends_suppress _

theorem claim_C9_witness :
    transformTimeline 0 [TimelineItem.merged ⟨"dave"⟩ 5, TimelineItem.closed ⟨"dave"⟩ 6]
      = ([TimelineItem.merged ⟨"dave"⟩ 5,
          TimelineItem.closed ⟨"dave"⟩ 6].filterMap (transformTimelineItem 0)).dropLast :=
  (claim_C9 0 [TimelineItem.merged ⟨"dave"⟩ 5, TimelineItem.closed ⟨"dave"⟩ 6]).1
    ⟨[], { event := "merged", createdAt := 5, actor := some ⟨"dave"⟩ },
      { event := "closed", createdAt := 6, actor := some ⟨"dave"⟩ }, rfl, rfl, rfl⟩

/-! ## Theorems: characterization of the reduce fold -/

theorem key_set_count (a : Activity) (c : Option Nat) :
    getActivityGroupKey { a with count := c } = getActivityGroupKey a := rfl

theorem mapGet_map_keys (g : String → GroupEntry) (ks : List String) (k : String) :
    mapGet (ks.map (fun j => (j, g j))) k = if k ∈ ks then some (g k) else none := by
  induction ks with
  | nil => rfl
  | cons k0 rest ih =>
      by_cases h : k0 = k
      · subst h
        simp [mapGet, List.find?_cons]
      · have hstep : mapGet ((k0 :: rest).map (fun j => (j, g j))) k
            = mapGet (rest.map (fun j => (j, g j))) k := by
          simp [mapGet, List.find?_cons, h]
        rw [hstep, ih]
        by_cases hm : k ∈ rest
        · rw [if_pos hm, if_pos (List.mem_cons_of_mem _ hm)]
        · have hnotin : k ∉ k0 :: rest := by
            intro hc
            rcases List.mem_cons.mp hc with h1 | h1
            · exact h h1.symm
            · exact hm h1
          rw [if_neg hm, if_neg hnotin]

theorem mapSet_append_of_not_mem (m : List (String × GroupEntry)) (k : String) (v : GroupEntry)
    (h : ∀ p ∈ m, p.1 ≠ k) : mapSet m k v = m ++ [(k, v)] := by
  induction m with
  | nil => rfl
  | cons p rest ih =>
      have hp : p.1 ≠ k := h p (List.mem_cons_self p rest)
      simp only [mapSet, if_neg hp]
      rw [ih (fun q hq => h q (List.mem_cons_of_mem p hq))]
      rfl

theorem mapSet_map_keys (g : String → GroupEntry) (ks : List String) (hk : ks.Nodup)
    (k : String) (v : GroupEntry) (hmem : k ∈ ks) :
    mapSet (ks.map (fun j => (j, g j))) k v
      = ks.map (fun j => (j, if j = k then v else g j)) := by
  induction ks with
  | nil => cases hmem
  | cons k0 rest ih =>
      show (if k0 = k then (k, v) :: rest.map (fun j => (j, g j))
            else (k0, g k0) :: mapSet (rest.map (fun j => (j, g j))) k v) = _
      by_cases h : k0 = k
      · subst h
        rw [if_pos rfl]
        show _ = (k0, if k0 = k0 then v else g k0) :: _
        rw [if_pos rfl]
        have hnotin : k0 ∉ rest := (List.nodup_cons.mp hk).1
        congr 1
        apply List.map_congr_left
        intro j hj
        have hne : j ≠ k0 := fun hjk => hnotin (hjk ▸ hj)
        rw [if_neg hne]
      · have hmem' : k ∈ rest := by
          rcases List.mem_cons.mp hmem with h1 | h1
          · exact absurd h1.symm h
          · exact h1
        rw [if_neg h]
        show _ = (k0, if k0 = k then v else g k0) :: _
        rw [if_neg h, ih (List.nodup_cons.mp hk).2 hmem']

theorem mem_firstKeys {k : String} {ks : List String} : k ∈ firstKeys ks ↔ k ∈ ks := by
  induction ks with
  | nil => simp [firstKeys]
  | cons k0 rest ih =>
      simp only [firstKeys, List.mem_cons, List.mem_filter, bne_iff_ne]
      constructor
      · rintro (h | ⟨h, _⟩)
        · exact Or.inl h
        · exact Or.inr (ih.mp h)
      · rintro (h | h)
        · exact Or.inl h
        · by_cases hk : k = k0
          · exact Or.inl hk
          · exact Or.inr ⟨ih.mpr h, hk⟩

theorem firstKeys_nodup (ks : List String) : (firstKeys ks).Nodup := by
  induction ks with
  | nil => exact List.nodup_nil
  | cons k0 rest ih =>
      rw [firstKeys, List.nodup_cons]
      constructor
      · intro hmem
        have := (List.mem_filter.mp hmem).2
        simp at this
      · exact List.Nodup.filter _ ih

theorem firstKeys_snoc (ks : List String) (k : String) :
    firstKeys (ks ++ [k]) = if k ∈ ks then firstKeys ks else firstKeys ks ++ [k] := by
  induction ks with
  | nil => simp [firstKeys]
  | cons k0 rest ih =>
      show k0 :: (firstKeys (rest ++ [k])).filter (fun j => j != k0) = _
      rw [ih]
      by_cases hm : k ∈ rest
      · rw [if_pos hm, if_pos (List.mem_cons_of_mem _ hm)]
        rfl
      · rw [if_neg hm]
        by_cases hk : k = k0
        · subst hk
          rw [if_pos (List.mem_cons_self _ _), List.filter_append]
          have hone : List.filter (fun j => j != k) [k] = [] := by simp
          rw [hone, List.append_nil]
          rfl
        · have hnotin : k ∉ k0 :: rest := by
            intro hc
            rcases List.mem_cons.mp hc with h1 | h1
            · exact hk h1
            · exact hm h1
          rw [if_neg hnotin, List.filter_append]
          have hone : List.filter (fun j => j != k0) [k] = [k] := by simp [hk]
          rw [hone]
          rfl

theorem mem_lastKeys {k : String} {ks : List String} : k ∈ lastKeys ks ↔ k ∈ ks := by
  induction ks with
  | nil => simp [lastKeys]
  | cons k0 rest ih =>
      by_cases hm : rest.contains k0
      · simp only [lastKeys, if_pos hm]
        rw [ih, List.mem_cons]
        constructor
        · exact Or.inr
        · rintro (h | h)
          · subst h
            simpa using hm
          · exact h
      · simp only [lastKeys, if_neg hm, List.mem_cons, ih]

theorem lastKeys_cons_of_mem {k0 : String} {rest : List String} (hm : k0 ∈ rest) :
    lastKeys (k0 :: rest) = lastKeys rest := by
  show (if rest.contains k0 then lastKeys rest else k0 :: lastKeys rest) = _
  rw [if_pos (by simpa using hm)]

theorem lastKeys_cons_of_not_mem {k0 : String} {rest : List String} (hm : k0 ∉ rest) :
    lastKeys (k0 :: rest) = k0 :: lastKeys rest := by
  show (if rest.contains k0 then lastKeys rest else k0 :: lastKeys rest) = _
  rw [if_neg (by simpa using hm)]

theorem lastKeys_nodup (ks : List String) : (lastKeys ks).Nodup := by
  induction ks with
  | nil => exact List.nodup_nil
  | cons k0 rest ih =>
      by_cases hm : k0 ∈ rest
      · rw [lastKeys_cons_of_mem hm]
        exact ih
      · rw [lastKeys_cons_of_not_mem hm, List.nodup_cons]
        exact ⟨fun hmem => hm (mem_lastKeys.mp hmem), ih⟩

theorem entryFor_snoc_ne (k : String) (E : List (Nat × Activity)) (ia : Nat × Activity)
    (h : keyAt ia ≠ k) : entryFor k (E ++ [ia]) = entryFor k E := by
  unfold entryFor
  rw [List.filter_append]
  have hone : List.filter (fun jb => keyAt jb == k) [ia] = [] := by
    rw [List.filter_eq_nil_iff]
    intro jb hjb
    rw [List.mem_singleton] at hjb
    subst hjb
    simpa using h
  rw [hone, List.append_nil]

theorem entryFor_snoc_eq (E : List (Nat × Activity)) (ia : Nat × Activity) :
    entryFor (keyAt ia) (E ++ [ia])
      = ⟨ia.2, (E.filter (fun jb => keyAt jb == keyAt ia)).length + 1, ia.1⟩ := by
  unfold entryFor
  rw [List.filter_append]
  have hone : List.filter (fun jb => keyAt jb == keyAt ia) [ia] = [ia] := by
    simp
  rw [hone, List.getLast?_concat, List.length_append]
  rfl

theorem filter_eq_nil_of_not_mem_keys (k : String) (E : List (Nat × Activity))
    (h : k ∉ E.map keyAt) : E.filter (fun ia => keyAt ia == k) = [] := by
  rw [List.filter_eq_nil_iff]
  intro ia hia
  simp only [beq_iff_eq]
  intro hk
  exact h (hk ▸ List.mem_map_of_mem keyAt hia)

theorem foldl_reduceStep_char (E : List (Nat × Activity)) :
    E.foldl reduceStep [] = (firstKeys (E.map keyAt)).map (fun k => (k, entryFor k E)) := by
  induction E using List.reverseRecOn with
  | nil => rfl
  | append_singleton E ia ih =>
      rw [List.foldl_append, ih]
      rw [List.map_append, show List.map keyAt [ia] = [keyAt ia] from rfl, firstKeys_snoc]
      by_cases hmem : keyAt ia ∈ E.map keyAt
      · rw [if_pos hmem]
        have hget : mapGet ((firstKeys (E.map keyAt)).map (fun k => (k, entryFor k E)))
            (getActivityGroupKey ia.2) = some (entryFor (keyAt ia) E) := by
          rw [show getActivityGroupKey ia.2 = keyAt ia from rfl]
          rw [mapGet_map_keys, if_pos (mem_firstKeys.mpr hmem)]
        have hstep : List.foldl reduceStep
              ((firstKeys (E.map keyAt)).map (fun k => (k, entryFor k E))) [ia]
            = mapSet ((firstKeys (E.map keyAt)).map (fun k => (k, entryFor k E)))
                (getActivityGroupKey ia.2)
                ⟨ia.2, (entryFor (keyAt ia) E).count + 1, ia.1⟩ := by
          show reduceStep _ ia = _
          unfold reduceStep
          rw [hget]
        rw [hstep, show getActivityGroupKey ia.2 = keyAt ia from rfl]
        rw [mapSet_map_keys _ _ (firstKeys_nodup _) _ _ (mem_firstKeys.mpr hmem)]
        apply List.map_congr_left
        intro j hj
        by_cases hjk : j = keyAt ia
        · subst hjk
          rw [if_pos rfl, entryFor_snoc_eq]
          rfl
        · rw [if_neg hjk, entryFor_snoc_ne _ _ _ (fun h => hjk h.symm)]
      · rw [if_neg hmem]
        have hget : mapGet ((firstKeys (E.map keyAt)).map (fun k => (k, entryFor k E)))
            (getActivityGroupKey ia.2) = none := by
          rw [show getActivityGroupKey ia.2 = keyAt ia from rfl]
          rw [mapGet_map_keys, if_neg (fun hc => hmem (mem_firstKeys.mp hc))]
        have hstep : List.foldl reduceStep
              ((firstKeys (E.map keyAt)).map (fun k => (k, entryFor k E))) [ia]
            = mapSet ((firstKeys (E.map keyAt)).map (fun k => (k, entryFor k E)))
                (getActivityGroupKey ia.2) ⟨ia.2, 1, ia.1⟩ := by
          show reduceStep _ ia = _
          unfold reduceStep
          rw [hget]
        rw [hstep, show getActivityGroupKey ia.2 = keyAt ia from rfl]
        rw [mapSet_append_of_not_mem _ _ _ (by
          intro p hp
          obtain ⟨j, hj, hpj⟩ := List.mem_map.mp hp
          subst hpj
          intro hpk
          have hj' : j ∈ E.map keyAt := mem_firstKeys.mp hj
          rw [show ((j, entryFor j E) : String × GroupEntry).1 = j from rfl] at hpk
          exact hmem (hpk ▸ hj'))]
        rw [List.map_append]
        congr 1
        · apply List.map_congr_left
          intro j hj
          have hj' : j ∈ E.map keyAt := mem_firstKeys.mp hj
          have hjk : keyAt ia ≠ j := fun h => hmem (h ▸ hj')
          rw [entryFor_snoc_ne _ _ _ hjk]
        · rw [show List.map (fun k => (k, entryFor k (E ++ [ia]))) [keyAt ia]
              = [(keyAt ia, entryFor (keyAt ia) (E ++ [ia]))] from rfl]
          rw [entryFor_snoc_eq, filter_eq_nil_of_not_mem_keys _ _ hmem]
          rfl

/-! ## Theorems: order characterization of reduceActivities -/

theorem lastOccsE_cons (ia : Nat × Activity) (rest : List (Nat × Activity)) :
    lastOccsE (ia :: rest)
      = if rest.any (fun jb => keyAt jb == keyAt ia) then lastOccsE rest
        else ia :: lastOccsE rest := rfl

theorem lastOccs_cons (x : Activity) (rest : List Activity) :
    lastOccs (x :: rest)
      = if rest.any (fun b => getActivityGroupKey b == getActivityGroupKey x) then lastOccs rest
        else x :: lastOccs rest := rfl

theorem lastOccsE_sublist (E : List (Nat × Activity)) : (lastOccsE E).Sublist E := by
  induction E with
  | nil => exact List.Sublist.refl _
  | cons ia rest ih =>
      rw [lastOccsE_cons]
      by_cases h : rest.any (fun jb => keyAt jb == keyAt ia) = true
      · rw [if_pos h]
        exact ih.trans (List.sublist_cons_self _ _)
      · rw [if_neg h]
        exact ih.cons₂ ia

theorem lastOccsE_getLast (E : List (Nat × Activity)) :
    ∀ ia ∈ lastOccsE E,
      (E.filter (fun jb => keyAt jb == keyAt ia)).getLast? = some ia := by
  induction E with
  | nil => intro ia h; cases h
  | cons jb rest ih =>
      intro ia hia
      rw [lastOccsE_cons] at hia
      by_cases h : rest.any (fun kc => keyAt kc == keyAt jb) = true
      · rw [if_pos h] at hia
        rw [List.filter_cons]
        by_cases hk : keyAt jb = keyAt ia
        · rw [if_pos (by simpa using hk)]
          have hne : rest.filter (fun kc => keyAt kc == keyAt ia) ≠ [] := by
            obtain ⟨kc, hkc, hkeq⟩ := List.any_eq_true.mp h
            intro hnil
            have hmemf : kc ∈ rest.filter (fun kc => keyAt kc == keyAt ia) := by
              rw [List.mem_filter]
              refine ⟨hkc, ?_⟩
              rw [beq_iff_eq] at hkeq ⊢
              rw [hkeq, hk]
            rw [hnil] at hmemf
            cases hmemf
          have hih := ih ia hia
          obtain ⟨y, ys, hys⟩ := List.exists_cons_of_ne_nil hne
          rw [hys] at hih ⊢
          rw [List.getLast?_cons_cons]
          exact hih
        · rw [if_neg (by simpa using hk)]
          exact ih ia hia
      · rw [if_neg h] at hia
        have hnokey : ∀ kc ∈ rest, keyAt kc ≠ keyAt jb := by
          intro kc hkc hkeq
          exact h (List.any_eq_true.mpr ⟨kc, hkc, by simpa using hkeq⟩)
        rcases List.mem_cons.mp hia with h1 | h1
        · subst h1
          rw [List.filter_cons, if_pos (by simp)]
          have hnil : rest.filter (fun kc => keyAt kc == keyAt ia) = [] := by
            rw [List.filter_eq_nil_iff]
            intro kc hkc
            simpa using hnokey kc hkc
          rw [hnil]
          rfl
        · have hmem : ia ∈ rest := (lastOccsE_sublist rest).subset h1
          have hne : keyAt jb ≠ keyAt ia := fun hk => hnokey ia hmem hk.symm
          rw [List.filter_cons, if_neg (by simpa using hne)]
          exact ih ia h1

theorem any_enumFrom_key (n : Nat) (xs : List Activity) (k : String) :
    (List.enumFrom n xs).any (fun jb => keyAt jb == k)
      = xs.any (fun b => getActivityGroupKey b == k) := by
  induction xs generalizing n with
  | nil => rfl
  | cons x rest ih =>
      show ((n, x) :: List.enumFrom (n + 1) rest).any (fun jb => keyAt jb == k) = _
      rw [List.any_cons, List.any_cons, ih]
      rfl

theorem length_filter_enumFrom_key (n : Nat) (xs : List Activity) (k : String) :
    ((List.enumFrom n xs).filter (fun jb => keyAt jb == k)).length
      = (xs.filter (fun b => getActivityGroupKey b == k)).length := by
  induction xs generalizing n with
  | nil => rfl
  | cons x rest ih =>
      show (((n, x) :: List.enumFrom (n + 1) rest).filter (fun jb => keyAt jb == k)).length = _
      rw [List.filter_cons, List.filter_cons]
      by_cases h : getActivityGroupKey x = k
      · rw [if_pos (by simpa using h), if_pos (by simpa using h)]
        simp only [List.length_cons, ih]
      · rw [if_neg (by simpa using h), if_neg (by simpa using h)]
        exact ih _

theorem lastOccsE_keys (E : List (Nat × Activity)) :
    (lastOccsE E).map keyAt = lastKeys (E.map keyAt) := by
  induction E with
  | nil => rfl
  | cons ia rest ih =>
      rw [lastOccsE_cons, List.map_cons]
      by_cases h : keyAt ia ∈ rest.map keyAt
      · obtain ⟨jb, hjb, hjk⟩ := List.mem_map.mp h
        rw [if_pos (List.any_eq_true.mpr ⟨jb, hjb, by simpa using hjk⟩)]
        rw [lastKeys_cons_of_mem h, ih]
      · rw [if_neg (by
          intro hc
          obtain ⟨jb, hjb, hjk⟩ := List.any_eq_true.mp hc
          rw [beq_iff_eq] at hjk
          exact h (hjk ▸ List.mem_map_of_mem keyAt hjb))]
        rw [lastKeys_cons_of_not_mem h, List.map_cons, ih]

theorem pairwise_fst_lt_enumFrom (n : Nat) (xs : List Activity) :
    List.Pairwise (fun p q : Nat × Activity => p.1 < q.1) (List.enumFrom n xs) := by
  induction xs generalizing n with
  | nil => exact List.Pairwise.nil
  | cons x rest ih =>
      show List.Pairwise _ ((n, x) :: List.enumFrom (n + 1) rest)
      refine List.Pairwise.cons ?_ (ih (n + 1))
      intro q hq
      have := (List.mem_enumFrom hq).1
      show n < q.1
      omega

theorem pairwise_fst_lt_lastOccsE (xs : List Activity) :
    List.Pairwise (fun p q : Nat × Activity => p.1 < q.1) (lastOccsE xs.enum) :=
  List.Pairwise.sublist (lastOccsE_sublist xs.enum) (pairwise_fst_lt_enumFrom 0 xs)

theorem entry_of_lastOccsE {xs : List (Nat × Activity)} {ia : Nat × Activity}
    (h : ia ∈ lastOccsE xs) :
    entryFor (keyAt ia) xs
      = ⟨ia.2, (xs.filter (fun jb => keyAt jb == keyAt ia)).length, ia.1⟩ := by
  have hlast := lastOccsE_getLast xs ia h
  unfold entryFor
  rw [hlast]
  rfl

theorem map_lastKeys_eq_map_lastOccsE (E : List (Nat × Activity)) :
    (lastKeys (E.map keyAt)).map (fun k => (k, entryFor k E))
      = (lastOccsE E).map (fun ia => (keyAt ia, entryFor (keyAt ia) E)) := by
  rw [← lastOccsE_keys, List.map_map]
  rfl

theorem sorted_entryLt_target (xs : List Activity) :
    List.Pairwise entryLt
      ((lastOccsE xs.enum).map (fun ia => (keyAt ia, entryFor (keyAt ia) xs.enum))) := by
  rw [List.pairwise_map]
  refine List.Pairwise.imp_of_mem ?_ (pairwise_fst_lt_lastOccsE xs)
  intro p q hp hq hlt
  show entryLt (keyAt p, entryFor (keyAt p) xs.enum) (keyAt q, entryFor (keyAt q) xs.enum)
  unfold entryLt
  rw [entry_of_lastOccsE hp, entry_of_lastOccsE hq]
  exact hlt

theorem sortedChar (xs : List Activity) :
    List.insertionSort entryLe (xs.enum.foldl reduceStep [])
      = (lastKeys (xs.enum.map keyAt)).map (fun k => (k, entryFor k xs.enum)) := by
  have hpermkeys : List.Perm (firstKeys (xs.enum.map keyAt)) (lastKeys (xs.enum.map keyAt)) :=
    (List.perm_ext_iff_of_nodup (firstKeys_nodup _) (lastKeys_nodup _)).mpr
      (fun k => by rw [mem_firstKeys, mem_lastKeys])
  have hperm : List.Perm (List.insertionSort entryLe (xs.enum.foldl reduceStep []))
      ((lastKeys (xs.enum.map keyAt)).map (fun k => (k, entryFor k xs.enum))) := by
    rw [foldl_reduceStep_char]
    exact (List.perm_insertionSort _ _).trans (hpermkeys.map _)
  have hsortR : List.Pairwise entryLt
      ((lastKeys (xs.enum.map keyAt)).map (fun k => (k, entryFor k xs.enum))) := by
    rw [map_lastKeys_eq_map_lastOccsE]
    exact sorted_entryLt_target xs
  have hndR : ((lastKeys (xs.enum.map keyAt)).map (fun k => (k, entryFor k xs.enum))).Pairwise
      (fun p q : String × GroupEntry => p.2.lastIndex ≠ q.2.lastIndex) :=
    hsortR.imp (fun h => Nat.ne_of_lt h)
  have hndL : (List.insertionSort entryLe (xs.enum.foldl reduceStep [])).Pairwise
      (fun p q : String × GroupEntry => p.2.lastIndex ≠ q.2.lastIndex) :=
    (List.Perm.pairwise_iff (fun h => Ne.symm h) hperm).mpr hndR
  have hsortLle : List.Pairwise entryLe
      (List.insertionSort entryLe (xs.enum.foldl reduceStep [])) :=
    List.sorted_insertionSort entryLe _
  have hsortL : List.Pairwise entryLt
      (List.insertionSort entryLe (xs.enum.foldl reduceStep [])) := by
    have hand := hsortLle.and hndL
    exact hand.imp (fun h => Nat.lt_of_le_of_ne h.1 h.2)
  exact List.eq_of_perm_of_sorted hperm hsortL hsortR

theorem reduceActivities_unfold (xs : List Activity) :
    reduceActivities xs
      = (List.insertionSort entryLe (xs.enum.foldl reduceStep [])).map
          (fun p => { p.2.activity with count := some p.2.count }) := rfl

theorem reduce_eq_mapE (xs : List Activity) :
    reduceActivities xs
      = (lastOccsE xs.enum).map
          (fun ia =>
            { ia.2 with
              count := some (xs.enum.filter (fun jb => keyAt jb == keyAt ia)).length }) := by
  rw [reduceActivities_unfold, sortedChar, map_lastKeys_eq_map_lastOccsE, List.map_map]
  apply List.map_congr_left
  intro ia hia
  have he := entry_of_lastOccsE hia
  show { (entryFor (keyAt ia) xs.enum).activity with
         count := some (entryFor (keyAt ia) xs.enum).count }
      = { ia.2 with
          count := some (xs.enum.filter (fun jb => keyAt jb == keyAt ia)).length }
  rw [he]

theorem lastOccsE_enumFrom_snd (n : Nat) (xs : List Activity) :
    (lastOccsE (List.enumFrom n xs)).map Prod.snd = lastOccs xs := by
  induction xs generalizing n with
  | nil => rfl
  | cons x rest ih =>
      show (lastOccsE ((n, x) :: List.enumFrom (n + 1) rest)).map Prod.snd = _
      rw [lastOccsE_cons, lastOccs_cons]
      rw [show keyAt (n, x) = getActivityGroupKey x from rfl, any_enumFrom_key]
      by_cases h : rest.any (fun b => getActivityGroupKey b == getActivityGroupKey x) = true
      · rw [if_pos h, if_pos h]
        exact ih (n + 1)
      · rw [if_neg h, if_neg h, List.map_cons, ih (n + 1)]

/-- reduceActivities computes exactly its extensional description: the
last occurrence of every group key, ordered by last occurrence, with
count the number of occurrences of the group. -/
theorem reduce_eq_reduceLastOccs (xs : List Activity) :
    reduceActivities xs = reduceLastOccs xs := by
  rw [reduce_eq_mapE]
  unfold reduceLastOccs
  rw [← lastOccsE_enumFrom_snd 0 xs, List.map_map]
  apply List.map_congr_left
  intro ia hia
  show { ia.2 with
         count := some ((List.enumFrom 0 xs).filter (fun jb => keyAt jb == keyAt ia)).length } = _
  rw [length_filter_enumFrom_key]
  rfl

theorem keys_reduce_eq_keys_lastOccs (xs : List Activity) :
    (reduceActivities xs).map getActivityGroupKey
      = (lastOccs xs).map getActivityGroupKey := by
  rw [reduce_eq_reduceLastOccs]
  unfold reduceLastOccs
  rw [List.map_map]
  apply List.map_congr_left
  intro a _
  exact key_set_count a _

theorem keys_lastOccs_eq_lastKeys (xs : List Activity) :
    (lastOccs xs).map getActivityGroupKey = lastKeys (xs.map getActivityGroupKey) := by
  induction xs with
  | nil => rfl
  | cons x rest ih =>
      rw [lastOccs_cons, List.map_cons]
      by_cases h : getActivityGroupKey x ∈ rest.map getActivityGroupKey
      · obtain ⟨b, hb, hbk⟩ := List.mem_map.mp h
        rw [if_pos (List.any_eq_true.mpr ⟨b, hb, by simpa using hbk⟩)]
        rw [lastKeys_cons_of_mem h, ih]
      · rw [if_neg (by
          intro hc
          obtain ⟨b, hb, hbk⟩ := List.any_eq_true.mp hc
          rw [beq_iff_eq] at hbk
          exact h (hbk ▸ List.mem_map_of_mem getActivityGroupKey hb))]
        rw [lastKeys_cons_of_not_mem h, List.map_cons, ih]

theorem keys_reduce_nodup (xs : List Activity) :
    ((reduceActivities xs).map getActivityGroupKey).Nodup := by
  rw [keys_reduce_eq_keys_lastOccs, keys_lastOccs_eq_lastKeys]
  exact lastKeys_nodup _

theorem mem_keys_reduce {k : String} {xs : List Activity} (h : k ∈ xs.map getActivityGroupKey) :
    ∃ r ∈ reduceActivities xs, getActivityGroupKey r = k := by
  have hmem : k ∈ (reduceActivities xs).map getActivityGroupKey := by
    rw [keys_reduce_eq_keys_lastOccs, keys_lastOccs_eq_lastKeys]
    exact mem_lastKeys.mpr h
  obtain ⟨r, hr, hrk⟩ := List.mem_map.mp hmem
  exact ⟨r, hr, hrk⟩

theorem lastOccs_filter_key (k : String) (xs : List Activity) :
    (lastOccs xs).filter (fun b => getActivityGroupKey b == k)
      = (keyFilter k xs).getLast?.toList := by
  induction xs with
  | nil => rfl
  | cons x rest ih =>
      rw [lastOccs_cons]
      by_cases h : rest.any (fun b => getActivityGroupKey b == getActivityGroupKey x) = true
      · rw [if_pos h, ih]
        unfold keyFilter
        rw [List.filter_cons]
        by_cases hk : getActivityGroupKey x = k
        · rw [if_pos (by simpa using hk)]
          have hne : rest.filter (fun b => getActivityGroupKey b == k) ≠ [] := by
            obtain ⟨b, hb, hbk⟩ := List.any_eq_true.mp h
            intro hnil
            have hmemf : b ∈ rest.filter (fun b => getActivityGroupKey b == k) := by
              rw [List.mem_filter]
              rw [beq_iff_eq] at hbk
              exact ⟨hb, by rw [beq_iff_eq, hbk, hk]⟩
            rw [hnil] at hmemf
            cases hmemf
          obtain ⟨y, ys, hys⟩ := List.exists_cons_of_ne_nil hne
          rw [hys, List.getLast?_cons_cons]
        · rw [if_neg (by simpa using hk)]
      · have hnokey : ∀ b ∈ rest, getActivityGroupKey b ≠ getActivityGroupKey x := by
          intro b hb hbk
          exact h (List.any_eq_true.mpr ⟨b, hb, by simpa using hbk⟩)
        rw [if_neg h, List.filter_cons]
        unfold keyFilter
        rw [List.filter_cons]
        by_cases hk : getActivityGroupKey x = k
        · rw [if_pos (by simpa using hk), if_pos (by simpa using hk)]
          have hnil : rest.filter (fun b => getActivityGroupKey b == k) = [] := by
            rw [List.filter_eq_nil_iff]
            intro b hb
            simp only [beq_iff_eq]
            intro hbk
            exact hnokey b hb (by rw [hbk, hk])
          have hnil2 : (lastOccs rest).filter (fun b => getActivityGroupKey b == k) = [] := by
            rw [ih]
            unfold keyFilter
            rw [hnil]
            rfl
          rw [hnil2, hnil]
          rfl
        · rw [if_neg (by simpa using hk), if_neg (by simpa using hk), ih]
          rfl

theorem reduce_filter_key (k : String) (xs : List Activity) :
    (reduceActivities xs).filter (fun r => getActivityGroupKey r == k)
      = ((keyFilter k xs).getLast?.map
          (fun last => { last with count := some (keyFilter k xs).length })).toList := by
  rw [reduce_eq_reduceLastOccs]
  unfold reduceLastOccs
  rw [List.filter_map]
  have hpred : ((fun r => getActivityGroupKey r == k)
        ∘ (fun a => { a with count := some (keyFilter (getActivityGroupKey a) xs).length }))
      = (fun b => getActivityGroupKey b == k) := by
    funext a
    show (getActivityGroupKey { a with count := _ } == k) = _
    rw [key_set_count]
  rw [hpred, lastOccs_filter_key]
  cases hlast : (keyFilter k xs).getLast? with
  | none => rfl
  | some last =>
      have hklast : getActivityGroupKey last = k := by
        have hmem : last ∈ keyFilter k xs := List.mem_of_mem_getLast? hlast
        have hmf := (List.mem_filter.mp hmem).2
        simpa using hmf
      have hred2 : List.map
            (fun a => { a with count := some (keyFilter (getActivityGroupKey a) xs).length })
            (some last).toList
          = [{ last with count := some (keyFilter (getActivityGroupKey last) xs).length }] := rfl
      have hred : (Option.map
            (fun last => { last with count := some (keyFilter k xs).length })
            (some last)).toList
          = [{ last with count := some (keyFilter k xs).length }] := rfl
      rw [hred2, hred, hklast]

/-! ## Theorems: reduction claims (C2, C3, C6, C7) -/

theorem string_append_left_cancel {p s t : String} (h : p ++ s = p ++ t) : s = t := by
  have hd := congrArg String.data h
  rw [String.data_append, String.data_append] at hd
  have hl := List.append_cancel_left hd
  cases s with
  | mk ds =>
      cases t with
      | mk dt =>
          simp only at hl
          rw [hl]

theorem key_reviewed (a : Activity) (sa : String) (he : a.event = "reviewed")
    (hs : a.state = some sa) :
    getActivityGroupKey a
      = ((a.actor.map Actor.login).getD "unknown") ++ ":" ++ "reviewed" ++ ":" ++ sa := by
  unfold getActivityGroupKey
  rw [he, hs]
  rw [if_neg (by decide), if_pos ⟨rfl, rfl⟩]
  rfl

theorem lastOccs_of_nodup_keys {l : List Activity} (h : (l.map getActivityGroupKey).Nodup) :
    lastOccs l = l := by
  induction l with
  | nil => rfl
  | cons x rest ih =>
      rw [List.map_cons, List.nodup_cons] at h
      rw [lastOccs_cons]
      have hcond : ¬ (rest.any (fun b => getActivityGroupKey b == getActivityGroupKey x) = true) := by
        intro hc
        obtain ⟨b, hb, hbk⟩ := List.any_eq_true.mp hc
        rw [beq_iff_eq] at hbk
        exact h.1 (hbk ▸ List.mem_map_of_mem getActivityGroupKey hb)
      rw [if_neg hcond, ih h.2]

theorem keyFilter_length_one_of_nodup {l : List Activity}
    (h : (l.map getActivityGroupKey).Nodup) :
    ∀ r ∈ l, (keyFilter (getActivityGroupKey r) l).length = 1 := by
  induction l with
  | nil => intro r hr; cases hr
  | cons x rest ih =>
      rw [List.map_cons, List.nodup_cons] at h
      intro r hr
      rcases List.mem_cons.mp hr with h1 | h1
      · subst h1
        unfold keyFilter
        rw [List.filter_cons, if_pos (by simp)]
        have hnil : rest.filter (fun b => getActivityGroupKey b == getActivityGroupKey r) = [] := by
          rw [List.filter_eq_nil_iff]
          intro b hb
          simp only [beq_iff_eq]
          intro hbk
          exact h.1 (hbk ▸ List.mem_map_of_mem getActivityGroupKey hb)
        rw [hnil]
        rfl
      · have hkr : getActivityGroupKey r ∈ rest.map getActivityGroupKey :=
          List.mem_map_of_mem _ h1
        have hkx : getActivityGroupKey x ≠ getActivityGroupKey r := fun hc => h.1 (hc ▸ hkr)
        unfold keyFilter
        rw [List.filter_cons, if_neg (by simpa using hkx)]
        exact ih h.2 r h1

/-- C2 (amended).  Reduction is not literally idempotent: a second
application leaves every field unchanged except count, which it resets
to 1 (each group occurs exactly once in reduced output, and the code
overwrites count with the new group size).  reduceActivities is
idempotent exactly on lists whose groups all have one occurrence. -/
theorem claim_C2 (xs : List Activity) :
    reduceActivities (reduceActivities xs)
      = (reduceActivities xs).map (fun a => { a with count := some 1 }) := by
  have hnd := keys_reduce_nodup xs
  rw [reduce_eq_reduceLastOccs (reduceActivities xs)]
  unfold reduceLastOccs
  rw [lastOccs_of_nodup_keys hnd]
  apply List.map_congr_left
  intro r hr
  rw [keyFilter_length_one_of_nodup hnd r hr]

/-- C2 counterexample.  reduce(reduce(xs)) differs from reduce(xs) on a
list with two activities by the same actor and event: the first
reduction produces one record with count 2, the second resets count
to 1. -/
theorem claim_C2_counterexample :
    reduceActivities (reduceActivities [actCommented, actCommentedLater])
      ≠ reduceActivities [actCommented, actCommentedLater] := by decide

/-- C6.  The records of reduceActivities are ordered by the index of
each group's last occurrence in the input (the order in which groups
most recently produced activity). -/
theorem claim_C6 (xs : List Activity) :
    List.Pairwise
      (fun r s => lastIdxOf (getActivityGroupKey r) xs < lastIdxOf (getActivityGroupKey s) xs)
      (reduceActivities xs) := by
  rw [reduce_eq_mapE, List.pairwise_map]
  refine List.Pairwise.imp_of_mem ?_ (pairwise_fst_lt_lastOccsE xs)
  intro p q hp hq hlt
  have hip : lastIdxOf (keyAt p) xs = p.1 := by
    unfold lastIdxOf
    rw [lastOccsE_getLast xs.enum p hp]
    rfl
  have hiq : lastIdxOf (keyAt q) xs = q.1 := by
    unfold lastIdxOf
    rw [lastOccsE_getLast xs.enum q hq]
    rfl
  have e1 : getActivityGroupKey
      { p.2 with count := some (List.filter (fun jb => keyAt jb == keyAt p) xs.enum).length }
      = keyAt p := key_set_count p.2 _
  have e2 : getActivityGroupKey
      { q.2 with count := some (List.filter (fun jb => keyAt jb == keyAt q) xs.enum).length }
      = keyAt q := key_set_count q.2 _
  rw [e1, e2, hip, hiq]
  exact hlt

/-- C7.  The reduced list has at most one record per group key; equal
(actor, event, review-state, committer/author) data always yields equal
group keys, so there is also at most one record per such tuple. -/
theorem claim_C7 (xs : List Activity) :
    ((reduceActivities xs).map getActivityGroupKey).Nodup
  ∧ (∀ a b : Activity, a.event = b.event → a.actor = b.actor → a.state = b.state →
      a.committer = b.committer → a.author = b.author →
      getActivityGroupKey a = getActivityGroupKey b) := by
  refine ⟨keys_reduce_nodup xs, ?_⟩
  intro a b h1 h2 h3 h4 h5
  unfold getActivityGroupKey
  rw [h1, h2, h3, h4, h5]

theorem claim_C7_witness :
    (((reduceActivities [actCommented, actCommentedLater]).map getActivityGroupKey).Nodup)
  ∧ getActivityGroupKey actCommented = getActivityGroupKey actCommentedLater :=
  ⟨(claim_C7 [actCommented, actCommentedLater]).1,
   (claim_C7 [actCommented, actCommentedLater]).2 actCommented actCommentedLater
     rfl rfl rfl rfl rfl⟩

/-- C3.  Grouping behaviour of reduceActivities.  First conjunct: two
reviewed activities of the same actor with different (present) review
states have different group keys, and each keeps its own record in the
reduced output - they are never merged.  Second conjunct: when the list
contains two activities differing only in their timestamp, the reduced
output carries exactly one record for their shared group: the last
occurrence of the group (hence the later timestamp), with count the
number of occurrences of the group. -/
theorem claim_C3 (xs : List Activity) :
    (∀ a b, a ∈ xs → b ∈ xs →
      a.event = "reviewed" → b.event = "reviewed" → a.actor = b.actor →
      ∀ sa sb, a.state = some sa → b.state = some sb → sa ≠ sb →
      getActivityGroupKey a ≠ getActivityGroupKey b ∧
      (∃ ra ∈ reduceActivities xs, getActivityGroupKey ra = getActivityGroupKey a) ∧
      (∃ rb ∈ reduceActivities xs, getActivityGroupKey rb = getActivityGroupKey b))
  ∧ (∀ a tb (b : Activity), a ∈ xs → b ∈ xs → b = { a with createdAt := tb } →
      ∃ last, (keyFilter (getActivityGroupKey a) xs).getLast? = some last ∧
        (reduceActivities xs).filter
            (fun r => getActivityGroupKey r == getActivityGroupKey a)
          = [{ last with count := some (keyFilter (getActivityGroupKey a) xs).length }]) := by
  constructor
  · intro a b ha hb hae hbe hactor sa sb hsa hsb hsne
    have hka := key_reviewed a sa hae hsa
    have hkb := key_reviewed b sb hbe hsb
    refine ⟨?_, ?_, ?_⟩
    · intro hk
      rw [hka, hkb, hactor] at hk
      exact hsne (string_append_left_cancel hk)
    · exact mem_keys_reduce (List.mem_map_of_mem _ ha)
    · exact mem_keys_reduce (List.mem_map_of_mem _ hb)
  · intro a tb b ha hb hab
    have hmem : a ∈ keyFilter (getActivityGroupKey a) xs := by
      unfold keyFilter
      rw [List.mem_filter]
      exact ⟨ha, by simp⟩
    cases hl : (keyFilter (getActivityGroupKey a) xs).getLast? with
    | none =>
        exfalso
        rw [List.getLast?_eq_none_iff] at hl
        rw [hl] at hmem
        cases hmem
    | some last =>
        refine ⟨last, rfl, ?_⟩
        rw [reduce_filter_key, hl]
        rfl

theorem claim_C3_witness :
    (getActivityGroupKey actReviewCommented ≠ getActivityGroupKey actReviewApproved ∧
      (∃ ra ∈ reduceActivities [actReviewCommented, actReviewApproved],
        getActivityGroupKey ra = getActivityGroupKey actReviewCommented) ∧
      (∃ rb ∈ reduceActivities [actReviewCommented, actReviewApproved],
        getActivityGroupKey rb = getActivityGroupKey actReviewApproved))
  ∧ (∃ last, (keyFilter (getActivityGroupKey actCommented)
        [actCommented, actCommentedLater]).getLast? = some last ∧
      (reduceActivities [actCommented, actCommentedLater]).filter
          (fun r => getActivityGroupKey r == getActivityGroupKey actCommented)
        = [{ last with count := some (keyFilter (getActivityGroupKey actCommented)
              [actCommented, actCommentedLater]).length }]) :=
  ⟨(claim_C3 [actReviewCommented, actReviewApproved]).1 actReviewCommented actReviewApproved
      (by decide) (by decide) rfl rfl rfl "commented" "approved" rfl rfl (by decide),
   (claim_C3 [actCommented, actCommentedLater]).2 actCommented 4 actCommentedLater
      (by decide) (by decide) (by decide)⟩

/-! ## Theorems: delivery gate characterization -/

theorem updMaxList_append (m : Option Nat) (l1 l2 : List Nat) :
    updMaxList m (l1 ++ l2) = updMaxList (updMaxList m l1) l2 :=
  List.foldl_append updMax m l1 l2

theorem updMax_isSome (m : Option Nat) (ts : Nat) :
    ∃ v, updMax m ts = some v ∧ ts ≤ v ∧ (∀ x, m = some x → x ≤ v) := by
  cases m with
  | none => exact ⟨ts, rfl, Nat.le_refl ts, fun x hx => by cases hx⟩
  | some x =>
      by_cases h : ts > x
      · refine ⟨ts, ?_, Nat.le_refl ts, ?_⟩
        · show (if ts > x then some ts else some x) = some ts
          rw [if_pos h]
        · intro y hy
          cases hy
          exact Nat.le_of_lt h
      · refine ⟨x, ?_, Nat.le_of_not_lt h, ?_⟩
        · show (if ts > x then some ts else some x) = some x
          rw [if_neg h]
        · intro y hy
          cases hy
          exact Nat.le_refl x

theorem updMax_eq_cases {m : Option Nat} {ts v : Nat} (h : updMax m ts = some v) :
    v = ts ∨ m = some v := by
  cases m with
  | none =>
      left
      cases h
      rfl
  | some x =>
      have h' : (if ts > x then some ts else some x) = some v := h
      by_cases hgt : ts > x
      · rw [if_pos hgt] at h'
        left
        cases h'
        rfl
      · rw [if_neg hgt] at h'
        right
        cases h'
        rfl

theorem updMaxList_le {l : List Nat} :
    ∀ {m : Option Nat} {v : Nat}, updMaxList m l = some v →
      (∀ x ∈ l, x ≤ v) ∧ (∀ x, m = some x → x ≤ v) := by
  induction l with
  | nil =>
      intro m v h
      refine ⟨fun x hx => absurd hx (List.not_mem_nil x), fun x hx => ?_⟩
      rw [show updMaxList m [] = m from rfl, hx] at h
      injection h with h2
      exact Nat.le_of_eq h2
  | cons ts rest ih =>
      intro m v h
      rw [show updMaxList m (ts :: rest) = updMaxList (updMax m ts) rest from rfl] at h
      obtain ⟨hr, hm⟩ := ih h
      obtain ⟨w, hw, hts, hwm⟩ := updMax_isSome m ts
      have hwv : w ≤ v := hm w hw
      constructor
      · intro x hx
        rcases List.mem_cons.mp hx with h1 | h1
        · subst h1
          exact Nat.le_trans hts hwv
        · exact hr x h1
      · intro x hx
        exact Nat.le_trans (hwm x hx) hwv

theorem updMaxList_some_isSome (l : List Nat) :
    ∀ m0 : Nat, ∃ v, updMaxList (some m0) l = some v := by
  induction l with
  | nil => intro m0; exact ⟨m0, rfl⟩
  | cons ts rest ih =>
      intro m0
      obtain ⟨w, hw, _, _⟩ := updMax_isSome (some m0) ts
      obtain ⟨v, hv⟩ := ih w
      refine ⟨v, ?_⟩
      rw [show updMaxList (some m0) (ts :: rest) = updMaxList (updMax (some m0) ts) rest from rfl]
      rw [hw]
      exact hv

theorem updMaxList_none_cases {m : Option Nat} {l : List Nat}
    (h : updMaxList m l = none) : m = none ∧ l = [] := by
  cases l with
  | nil => exact ⟨h, rfl⟩
  | cons ts rest =>
      exfalso
      rw [show updMaxList m (ts :: rest) = updMaxList (updMax m ts) rest from rfl] at h
      obtain ⟨w, hw, _, _⟩ := updMax_isSome m ts
      obtain ⟨v, hv⟩ := updMaxList_some_isSome rest w
      rw [hw, hv] at h
      cases h

theorem updMaxList_mem {l : List Nat} :
    ∀ {m : Option Nat} {v : Nat}, updMaxList m l = some v → m = some v ∨ v ∈ l := by
  induction l with
  | nil =>
      intro m v h
      exact Or.inl h
  | cons ts rest ih =>
      intro m v h
      rw [show updMaxList m (ts :: rest) = updMaxList (updMax m ts) rest from rfl] at h
      rcases ih h with h1 | h1
      · rcases updMax_eq_cases h1 with h2 | h2
        · subst h2
          exact Or.inr (List.mem_cons_self _ _)
        · exact Or.inl h2
      · exact Or.inr (List.mem_cons_of_mem _ h1)

theorem gateAct_fold (config : GhPingConfig) (viewer : Option String)
    (lpt : Option Nat) (t : Thread) (acts : List Activity)
    (d0 : List Delivery) (m0 : Option Nat) :
    acts.foldl (gateAct config viewer lpt t) (d0, m0)
      = (d0 ++ acts.filterMap (gateActDeliv config viewer lpt t),
         updMaxList m0 (acts.filterMap (gateActTrack lpt))) := by
  induction acts generalizing d0 m0 with
  | nil => simp [updMaxList]
  | cons a rest ih =>
      rw [List.foldl_cons]
      by_cases h : gateSkips lpt a.createdAt = true
      · have hstep : gateAct config viewer lpt t (d0, m0) a = (d0, m0) := by
          unfold gateAct
          rw [if_pos h]
        have hda : gateActDeliv config viewer lpt t a = none := by
          unfold gateActDeliv
          rw [if_pos h]
        have hta : gateActTrack lpt a = none := by
          unfold gateActTrack
          rw [if_pos h]
        rw [hstep, ih, List.filterMap_cons_none hda, List.filterMap_cons_none hta]
      · have hta : gateActTrack lpt a = some a.createdAt := by
          unfold gateActTrack
          rw [if_neg h]
        cases hf : formatActivityNotification t a config viewer with
        | some f =>
            have hstep : gateAct config viewer lpt t (d0, m0) a
                = (d0 ++ [mkDelivery f t], updMax m0 a.createdAt) := by
              unfold gateAct
              rw [if_neg h, hf]
            have hda : gateActDeliv config viewer lpt t a = some (mkDelivery f t) := by
              unfold gateActDeliv
              rw [if_neg h, hf]
              rfl
            rw [hstep, ih, List.filterMap_cons_some hda, List.filterMap_cons_some hta]
            rw [show updMaxList m0 (a.createdAt :: rest.filterMap (gateActTrack lpt))
                  = updMaxList (updMax m0 a.createdAt) (rest.filterMap (gateActTrack lpt))
                from rfl]
            rw [List.append_assoc]
            rfl
        | none =>
            have hstep : gateAct config viewer lpt t (d0, m0) a
                = (d0, updMax m0 a.createdAt) := by
              unfold gateAct
              rw [if_neg h, hf]
            have hda : gateActDeliv config viewer lpt t a = none := by
              unfold gateActDeliv
              rw [if_neg h, hf]
              rfl
            rw [hstep, ih, List.filterMap_cons_none hda, List.filterMap_cons_some hta]
            rfl

theorem gateThread_step (config : GhPingConfig) (viewer : Option String)
    (eb : String → Option String) (skipW : Thread → Bool) (lpt : Option Nat)
    (t : Thread) (d0 : List Delivery) (m0 : Option Nat) :
    gateThread config viewer eb skipW lpt (d0, m0) t
      = (d0 ++ gateThreadDeliv config viewer eb skipW lpt t,
         updMaxList m0 (gateThreadTracked skipW lpt t)) := by
  unfold gateThread gateThreadDeliv gateThreadTracked
  by_cases hw : skipW t = true
  · rw [if_pos hw, if_pos hw, if_pos hw]
    simp [updMaxList]
  · rw [if_neg hw, if_neg hw, if_neg hw]
    by_cases hne : t.activities ≠ []
    · rw [if_pos hne, if_pos hne, if_pos hne]
      exact gateAct_fold config viewer lpt t t.activities d0 m0
    · rw [if_neg hne, if_neg hne, if_neg hne]
      by_cases hskip : gateSkips lpt t.updatedAt = true
      · rw [if_pos hskip, if_pos hskip, if_pos hskip]
        simp [updMaxList]
      · rw [if_neg hskip, if_neg hskip, if_neg hskip]
        rfl

theorem pollNotifyCore_char (config : GhPingConfig) (viewer : Option String)
    (eb : String → Option String) (skipW : Thread → Bool) (lpt : Option Nat)
    (kept : List Thread) :
    pollNotifyCore config viewer eb skipW lpt kept
      = ((kept.map (gateThreadDeliv config viewer eb skipW lpt)).flatten,
         updMaxList none (kept.map (gateThreadTracked skipW lpt)).flatten) := by
  have haux : ∀ (ks : List Thread) (d0 : List Delivery) (m0 : Option Nat),
      ks.foldl (gateThread config viewer eb skipW lpt) (d0, m0)
        = (d0 ++ (ks.map (gateThreadDeliv config viewer eb skipW lpt)).flatten,
           updMaxList m0 (ks.map (gateThreadTracked skipW lpt)).flatten) := by
    intro ks
    induction ks with
    | nil => intro d0 m0; simp [updMaxList]
    | cons t rest ih =>
        intro d0 m0
        rw [List.foldl_cons, gateThread_step, ih]
        rw [List.map_cons, List.map_cons, List.flatten_cons, List.flatten_cons]
        rw [List.append_assoc, updMaxList_append]
  have h := haux kept [] none
  unfold pollNotifyCore
  rw [h]
  rfl

theorem gateActTrack_none_eq (a : Activity) : gateActTrack none a = some a.createdAt := by
  unfold gateActTrack
  rw [if_neg (by
    show ¬ gateSkips none a.createdAt = true
    unfold gateSkips
    simp)]

theorem mem_tracked_allTimestamps {skipW : Thread → Bool} {lpt : Option Nat}
    {kept : List Thread} {x : Nat}
    (h : x ∈ (kept.map (gateThreadTracked skipW lpt)).flatten) :
    x ∈ allTimestamps kept := by
  rw [List.mem_flatten] at h
  obtain ⟨l, hl, hx⟩ := h
  obtain ⟨t, ht, hlt⟩ := List.mem_map.mp hl
  subst hlt
  unfold gateThreadTracked at hx
  unfold allTimestamps
  rw [List.mem_flatten]
  refine ⟨t.updatedAt :: t.activities.map Activity.createdAt, List.mem_map_of_mem _ ht, ?_⟩
  by_cases hw : skipW t = true
  · rw [if_pos hw] at hx
    cases hx
  · rw [if_neg hw] at hx
    by_cases hne : t.activities ≠ []
    · rw [if_pos hne] at hx
      obtain ⟨a, ha, hax⟩ := List.mem_filterMap.mp hx
      unfold gateActTrack at hax
      by_cases hs : gateSkips lpt a.createdAt = true
      · rw [if_pos hs] at hax
        cases hax
      · rw [if_neg hs] at hax
        injection hax with hax
        subst hax
        exact List.mem_cons_of_mem _ (List.mem_map_of_mem _ ha)
    · rw [if_neg hne] at hx
      by_cases hs : gateSkips lpt t.updatedAt = true
      · rw [if_pos hs] at hx
        cases hx
      · rw [if_neg hs] at hx
        rw [List.mem_singleton] at hx
        subst hx
        exact List.mem_cons_self _ _

theorem tracked_nil_imp_skip {skipW : Thread → Bool} {t : Thread}
    (h : gateThreadTracked skipW none t = []) : skipW t = true := by
  by_cases hw : skipW t = true
  · exact hw
  · exfalso
    unfold gateThreadTracked at h
    rw [if_neg hw] at h
    by_cases hne : t.activities ≠ []
    · rw [if_pos hne] at h
      obtain ⟨a, ha⟩ := List.exists_mem_of_ne_nil t.activities hne
      have : gateActTrack none a = none := by
        rw [List.filterMap_eq_nil_iff] at h
        exact h a ha
      rw [gateActTrack_none_eq] at this
      cases this
    · rw [if_neg hne] at h
      rw [if_neg (by
        show ¬ gateSkips none t.updatedAt = true
        unfold gateSkips
        simp)] at h
      cases h

theorem gateThreadDeliv_empty_of_skip {config : GhPingConfig} {viewer : Option String}
    {eb : String → Option String} {skipW : Thread → Bool} {lpt : Option Nat} {t : Thread}
    (hw : skipW t = true) :
    gateThreadDeliv config viewer eb skipW lpt t = [] := by
  unfold gateThreadDeliv
  rw [if_pos hw]

theorem gateThreadDeliv_empty_of_acts_le {config : GhPingConfig} {viewer : Option String}
    {eb : String → Option String} {skipW : Thread → Bool} {t : Thread} {M : Nat}
    (hne : t.activities ≠ [])
    (hacts : ∀ a ∈ t.activities, a.createdAt ≤ M) :
    gateThreadDeliv config viewer eb skipW (some M) t = [] := by
  unfold gateThreadDeliv
  by_cases hw : skipW t = true
  · rw [if_pos hw]
  · rw [if_neg hw, if_pos hne]
    rw [List.filterMap_eq_nil_iff]
    intro a ha
    unfold gateActDeliv
    rw [if_pos (by
      show gateSkips (some M) a.createdAt = true
      unfold gateSkips
      exact decide_eq_true (hacts a ha))]

theorem gateThreadDeliv_empty_of_upd_le {config : GhPingConfig} {viewer : Option String}
    {eb : String → Option String} {skipW : Thread → Bool} {t : Thread} {M : Nat}
    (hemp : t.activities = []) (hupd : t.updatedAt ≤ M) :
    gateThreadDeliv config viewer eb skipW (some M) t = [] := by
  unfold gateThreadDeliv
  by_cases hw : skipW t = true
  · rw [if_pos hw]
  · rw [if_neg hw, if_neg (by
      intro hc
      exact hc hemp)]
    rw [if_pos (by
      show gateSkips (some M) t.updatedAt = true
      unfold gateSkips
      exact decide_eq_true hupd)]

theorem mem_tracked_of_act {skipW : Thread → Bool} {kept : List Thread} {t : Thread}
    {a : Activity} (ht : t ∈ kept) (hw : ¬ skipW t = true) (ha : a ∈ t.activities) :
    a.createdAt ∈ (kept.map (gateThreadTracked skipW none)).flatten := by
  rw [List.mem_flatten]
  refine ⟨gateThreadTracked skipW none t, List.mem_map_of_mem _ ht, ?_⟩
  unfold gateThreadTracked
  rw [if_neg hw, if_pos (List.ne_nil_of_mem ha)]
  exact List.mem_filterMap.mpr ⟨a, ha, gateActTrack_none_eq a⟩

theorem mem_tracked_of_upd {skipW : Thread → Bool} {kept : List Thread} {t : Thread}
    (ht : t ∈ kept) (hw : ¬ skipW t = true) (hemp : t.activities = []) :
    t.updatedAt ∈ (kept.map (gateThreadTracked skipW none)).flatten := by
  rw [List.mem_flatten]
  refine ⟨gateThreadTracked skipW none t, List.mem_map_of_mem _ ht, ?_⟩
  unfold gateThreadTracked
  rw [if_neg hw, if_neg (fun hc => hc hemp)]
  rw [if_neg (by
    show ¬ gateSkips none t.updatedAt = true
    unfold gateSkips
    simp)]
  exact List.mem_singleton.mpr rfl

theorem pollNotify_fst (config : GhPingConfig) (viewer : Option String)
    (eb : String → Option String) (skipW : Thread → Bool)
    (lpt : Option Nat) (rst : Nat) (kept : List Thread) :
    (pollNotify config viewer eb skipW lpt rst kept).1
      = (kept.map (gateThreadDeliv config viewer eb skipW lpt)).flatten := by
  unfold pollNotify
  rw [pollNotifyCore_char]
  cases hm : updMaxList none (kept.map (gateThreadTracked skipW lpt)).flatten with
  | some m => rfl
  | none => cases lpt <;> rfl

theorem pollNotify_snd (config : GhPingConfig) (viewer : Option String)
    (eb : String → Option String) (skipW : Thread → Bool)
    (lpt : Option Nat) (rst : Nat) (kept : List Thread) :
    ∃ v, (pollNotify config viewer eb skipW lpt rst kept).2 = some v ∧
      (updMaxList none (kept.map (gateThreadTracked skipW lpt)).flatten = some v
       ∨ ((kept.map (gateThreadTracked skipW lpt)).flatten = []
          ∧ (lpt = some v ∨ (lpt = none ∧ v = rst)))) := by
  unfold pollNotify
  rw [pollNotifyCore_char]
  cases hm : updMaxList none (kept.map (gateThreadTracked skipW lpt)).flatten with
  | some m => exact ⟨m, rfl, Or.inl rfl⟩
  | none =>
      have hnil := (updMaxList_none_cases hm).2
      cases lpt with
      | none => exact ⟨rst, rfl, Or.inr ⟨hnil, Or.inr ⟨rfl, rfl⟩⟩⟩
      | some w => exact ⟨w, rfl, Or.inr ⟨hnil, Or.inl rfl⟩⟩

/-- C1 (amended).  Replay deduplication of the delivery gate: running
one poll cycle on a feed response from a fresh gate delivers, exactly
once each, one notification per reduced activity the formatter renders
(per kept, non-workflow-suppressed thread) and one fallback
notification per kept thread with no activities, and running the next
poll cycle on the very same response delivers nothing at all.
cleanDeliveries lists each notification exactly once by construction
(one filterMap pass over each thread's reduced activities).  The claim
as frozen counts one notification per reduced activity; that fails for
event kinds the formatter does not render, which are delivered zero
times - see the counterexample. -/
theorem claim_C1 (config : GhPingConfig) (viewer : Option String)
    (eb : String → Option String) (skipW : Thread → Bool)
    (rst1 rst2 : Nat) (threads : List Thread) :
    (pollCycle config viewer eb skipW none rst1 threads).1
      = cleanDeliveries config viewer eb skipW
          (((filterThreads threads config.skipThreads).1).map (processThread config viewer))
  ∧ (pollCycle config viewer eb skipW
        ((pollCycle config viewer eb skipW none rst1 threads).2) rst2 threads).1 = [] := by
  constructor
  · unfold pollCycle cleanDeliveries
    rw [pollNotify_fst]
  · unfold pollCycle
    rw [pollNotify_fst]
    obtain ⟨v, hv, hcase⟩ := pollNotify_snd config viewer eb skipW none rst1
      (((filterThreads threads config.skipThreads).1).map (processThread config viewer))
    rw [hv]
    rw [List.flatten_eq_nil_iff]
    intro l hl
    obtain ⟨t, ht, hlt⟩ := List.mem_map.mp hl
    subst hlt
    rcases hcase with hmax | ⟨hnil, _⟩
    · by_cases hw : skipW t = true
      · exact gateThreadDeliv_empty_of_skip hw
      · have hle := (updMaxList_le hmax).1
        by_cases hemp : t.activities = []
        · exact gateThreadDeliv_empty_of_upd_le hemp
            (hle _ (mem_tracked_of_upd ht hw hemp))
        · exact gateThreadDeliv_empty_of_acts_le hemp
            (fun a ha => hle _ (mem_tracked_of_act ht hw ha))
    · have htr : gateThreadTracked skipW none t = [] := by
        have := List.flatten_eq_nil_iff.mp hnil
        exact this _ (List.mem_map_of_mem _ ht)
      exact gateThreadDeliv_empty_of_skip (tracked_nil_imp_skip htr)

/-- C1 counterexample.  A thread whose single reduced activity is an
unassignment (third conjunct: reduction leaves exactly one record)
yields zero deliveries in poll N and zero in poll N+1, not exactly
one: formatActivityTitle has no branch for the unassigned event kind,
so the gate sends nothing for it in any cycle. -/
theorem claim_C1_counterexample :
    (pollCycle cfg0 none (fun _ => none) (fun _ => false) none 0
        [mkThread [actUnassigned]]).1 = []
  ∧ (pollCycle cfg0 none (fun _ => none) (fun _ => false)
        ((pollCycle cfg0 none (fun _ => none) (fun _ => false) none 0
          [mkThread [actUnassigned]]).2) 0 [mkThread [actUnassigned]]).1 = []
  ∧ ((processThread cfg0 none (mkThread [actUnassigned])).activities).length = 1 :=
  ⟨by decide, by decide, by decide⟩

/-- C5 (amended).  Delivery gate freshness: an activity strictly later
than every timestamp of the previous cycle's feed data and than the
previous cycle's start time (the gate watermark falls back to the start
time when nothing qualified) is always delivered in the next cycle -
provided its thread is kept and not workflow-suppressed and the
formatter renders its event kind (non-null).  The claim as frozen fails
without the formatter proviso: see the counterexample with an
unassigned event. -/
theorem claim_C5 (config : GhPingConfig) (viewer : Option String)
    (eb : String → Option String) (skipW : Thread → Bool)
    (rst1 rst2 : Nat) (kept1 kept2 : List Thread) (t : Thread) (a : Activity) (f : Formatted)
    (ht : t ∈ kept2) (hw : skipW t = false) (ha : a ∈ t.activities)
    (hfmt : formatActivityNotification t a config viewer = some f)
    (hlater : ∀ x ∈ allTimestamps kept1, x < a.createdAt)
    (hrst : rst1 < a.createdAt) :
    mkDelivery f t ∈ (pollNotify config viewer eb skipW
        ((pollNotify config viewer eb skipW none rst1 kept1).2) rst2 kept2).1 := by
  obtain ⟨v, hv, hcase⟩ := pollNotify_snd config viewer eb skipW none rst1 kept1
  rw [hv, pollNotify_fst]
  have hvlt : v < a.createdAt := by
    rcases hcase with hmax | ⟨hnil, hor⟩
    · rcases updMaxList_mem hmax with h1 | h1
      · cases h1
      · exact hlater v (mem_tracked_allTimestamps h1)
    · rcases hor with h1 | ⟨_, h2⟩
      · cases h1
      · subst h2
        exact hrst
  rw [List.mem_flatten]
  refine ⟨gateThreadDeliv config viewer eb skipW (some v) t, List.mem_map_of_mem _ ht, ?_⟩
  unfold gateThreadDeliv
  rw [if_neg (by simp [hw]), if_pos (List.ne_nil_of_mem ha)]
  refine List.mem_filterMap.mpr ⟨a, ha, ?_⟩
  unfold gateActDeliv
  rw [if_neg (by
    show ¬ (decide (a.createdAt ≤ v) = true)
    simp only [decide_eq_true_eq]
    exact Nat.not_le.mpr hvlt)]
  rw [hfmt]
  rfl

theorem claim_C5_witness :
    mkDelivery ⟨"alice commented on \"Fix\"", "in repo"⟩ (mkThread [actCommented, actFresh])
      ∈ (pollNotify cfg0 none (fun _ => none) (fun _ => false)
          ((pollNotify cfg0 none (fun _ => none) (fun _ => false) none 0
            [mkThread [actCommented]]).2) 0 [mkThread [actCommented, actFresh]]).1 :=
  claim_C5 cfg0 none (fun _ => none) (fun _ => false) 0 0
    [mkThread [actCommented]] [mkThread [actCommented, actFresh]]
    (mkThread [actCommented, actFresh]) actFresh ⟨"alice commented on \"Fix\"", "in repo"⟩
    (by decide) rfl (by decide) (by decide) (by decide) (by decide)

/-- C5 counterexample.  The claim as frozen says such an activity is
always delivered.  An unassignment event survives shaping, filtering
and reduction (second conjunct: it reaches the delivery gate as a
reduced activity), its timestamp is strictly later than every
timestamp any prior poll saw (there was no prior poll), yet the cycle
delivers nothing, because formatActivityTitle has no branch for the
unassigned event kind and the formatter returns null. -/
theorem claim_C5_counterexample :
    (pollCycle cfg0 none (fun _ => none) (fun _ => false) none 0
        [mkThread [actUnassigned]]).1 = []
  ∧ ((filterThreads [mkThread [actUnassigned]] cfg0.skipThreads).1.map
        (processThread cfg0 none))
      = [{ mkThread [actUnassigned] with
            activities := [{ actUnassigned with count := some 1 }] }] :=
  ⟨by decide, by decide⟩

end GhPing
